import Mathlib

/-!
Verification development for the db-backups service.

The development shallowly embeds the core of the service:
* the hierarchical retention-pruning engine
  (`categorizeBackups`, `determineBackupsToKeep`, `applyRetentionPolicy`,
  `previewRetentionPolicy` from `src/lib/retention`),
* the backup executor and its two engine adapters
  (`executeBackup`, `executeMySQLBackup`, `executePostgresBackup` from
  `src/lib/backup`),
* the restore executor (`executeRestore` from `src/lib/restore`),
* the schedule coordinator (`scheduleBackupJob`, `unscheduleBackupJob`,
  `reloadSchedule`, `initializeScheduler` from `src/lib/scheduler`).

Conventions of the embedding:
* ISO-8601 timestamp strings are modelled as natural numbers; comparing the
  strings lexicographically or comparing the parsed dates both coincide with
  comparing these numbers.
* The five date-fns bucket-start functions (`startOfHour`, `startOfDay`,
  `startOfWeek`, `startOfMonth`, `startOfYear`) are external library code; a
  retention run only depends on them through the fields of a `TierFloors`
  value, and theorems assume the one property all five share: monotonicity
  in the instant.  `fixedFloors` is a concrete fixed-width instance used to
  evaluate the algorithm on concrete inputs.
* JavaScript `Map` objects are modelled as association lists in insertion
  order; `Set<string>` objects are modelled as `Finset String`.
* Byte streams are `List Nat`, text chunks are `List Char`; the gzip
  compressor and the SHA-256 hex digest are opaque function parameters.
* The SQLite catalog is modelled as the lists of rows the retention and
  executor code reads and writes.
-/

/-- Status column of a `BackupExecutions` row. -/
inductive BackupStatus where
  | running
  | completed
  | failed
  | cancelled
deriving DecidableEq, Repr

/-- One `BackupExecutions` row, restricted to the columns the retention
engine reads (`Id`, `DatabaseConfigId`, `Status`, `StartedAt`). -/
structure Backup where
  Id : String
  DatabaseConfigId : String
  Status : BackupStatus
  StartedAt : Nat
deriving DecidableEq, Repr

/-- A `RetentionPolicies` row: the five per-tier keep counts. -/
structure RetentionPolicy where
  KeepHourly : Nat
  KeepDaily : Nat
  KeepWeekly : Nat
  KeepMonthly : Nat
  KeepYearly : Nat
deriving DecidableEq, Repr

/-- The five date-fns bucket-start functions used by `categorizeBackups`,
as a record of functions on instants. -/
structure TierFloors where
  startOfHour : Nat → Nat
  startOfDay : Nat → Nat
  startOfWeek : Nat → Nat
  startOfMonth : Nat → Nat
  startOfYear : Nat → Nat

/-- The property of the date-fns bucket-start functions the retention
theorems rely on: each maps later instants to equal-or-later bucket starts. -/
structure MonoFloors (F : TierFloors) : Prop where
  hour : Monotone F.startOfHour
  day : Monotone F.startOfDay
  week : Monotone F.startOfWeek
  month : Monotone F.startOfMonth
  year : Monotone F.startOfYear

/-- Widths-based bucket start: start of the enclosing width-`w` window. -/
def floorTo (w : Nat) (t : Nat) : Nat := t / w * w

/-- Concrete fixed-width `TierFloors` instance (hour/day/week/month/year
approximated by fixed widths in seconds) used for concrete evaluations. -/
def fixedFloors : TierFloors where
  startOfHour := floorTo 3600
  startOfDay := floorTo 86400
  startOfWeek := floorTo 604800
  startOfMonth := floorTo 2592000
  startOfYear := floorTo 31536000

/-- Descending-by-`StartedAt` comparison used by the retention engine's
`sort((a, b) => new Date(b.StartedAt).getTime() - new Date(a.StartedAt).getTime())`. -/
def startedGE (a b : Backup) : Prop := b.StartedAt ≤ a.StartedAt

instance : DecidableRel startedGE :=
  fun a b => inferInstanceAs (Decidable (b.StartedAt ≤ a.StartedAt))

instance : IsTotal Backup startedGE :=
  ⟨fun a b => Nat.le_total b.StartedAt a.StartedAt⟩

instance : IsTrans Backup startedGE :=
  ⟨fun _ _ _ h1 h2 => Nat.le_trans h2 h1⟩

/-- Sort a list of backups newest-first, as the JavaScript
`[...backups].sort((a, b) => b - a)` comparisons do. -/
def sortDesc (l : List Backup) : List Backup := List.insertionSort startedGE l

/-- `Map.set` on a bucket map keyed by bucket-start instant: replace the
stored backup in place when the incoming one started strictly later
(`backup.StartedAt > buckets.get(key).StartedAt`), append a fresh entry for
an unseen key. -/
def upsertRep : List (Nat × Backup) → Nat → Backup → List (Nat × Backup)
  | [], k, b => [(k, b)]
  | (k1, b1) :: rest, k, b =>
    if k1 = k then
      if b1.StartedAt < b.StartedAt then (k1, b) :: rest else (k1, b1) :: rest
    else
      (k1, b1) :: upsertRep rest k b

/-- `Map.get` on a bucket map. -/
def lookupRep : List (Nat × Backup) → Nat → Option Backup
  | [], _ => none
  | (k1, b1) :: rest, k => if k1 = k then some b1 else lookupRep rest k

/-- One tier's bucket map accumulated over a list of backups: for every
backup, upsert it under the bucket-start of its `StartedAt`. -/
def bucketReps (f : Nat → Nat) (l : List Backup) : List (Nat × Backup) :=
  l.foldl (fun m b => upsertRep m (f b.StartedAt) b) []

/-- The five bucket maps built by `categorizeBackups`. -/
structure BackupBucket where
  hourly : List (Nat × Backup)
  daily : List (Nat × Backup)
  weekly : List (Nat × Backup)
  monthly : List (Nat × Backup)
  yearly : List (Nat × Backup)

/-- `categorizeBackups`: one pass over the backups, upserting each backup
into all five tier maps under its hour/day/week/month/year bucket start. -/
def categorizeBackups (F : TierFloors) (backups : List Backup) : BackupBucket :=
  backups.foldl
    (fun buckets backup =>
      { hourly := upsertRep buckets.hourly (F.startOfHour backup.StartedAt) backup
        daily := upsertRep buckets.daily (F.startOfDay backup.StartedAt) backup
        weekly := upsertRep buckets.weekly (F.startOfWeek backup.StartedAt) backup
        monthly := upsertRep buckets.monthly (F.startOfMonth backup.StartedAt) backup
        yearly := upsertRep buckets.yearly (F.startOfYear backup.StartedAt) backup })
    ⟨[], [], [], [], []⟩

/-- One tier block of `determineBackupsToKeep`: when the tier's keep count is
positive, sort the bucket representatives newest-first, keep the first
`keepN`, and collect their ids. -/
def tierKeepIds (keepN : Nat) (reps : List (Nat × Backup)) : Finset String :=
  if 0 < keepN then
    (((sortDesc (reps.map Prod.snd)).take keepN).map Backup.Id).toFinset
  else ∅

/-- `determineBackupsToKeep`: empty input keeps nothing; otherwise sort the
backups newest-first, categorize them into the five tier maps, and union the
ids kept by each tier with a positive keep count. -/
def determineBackupsToKeep (F : TierFloors) (backups : List Backup)
    (policy : RetentionPolicy) : Finset String :=
  if backups.isEmpty then ∅
  else
    let sortedBackups := sortDesc backups
    let buckets := categorizeBackups F sortedBackups
    tierKeepIds policy.KeepHourly buckets.hourly ∪
      tierKeepIds policy.KeepDaily buckets.daily ∪
      tierKeepIds policy.KeepWeekly buckets.weekly ∪
      tierKeepIds policy.KeepMonthly buckets.monthly ∪
      tierKeepIds policy.KeepYearly buckets.yearly

/-- The catalog state a retention run reads and writes: the
`RetentionPolicies` table (id-keyed) and the `BackupExecutions` table. -/
structure RetentionState where
  policies : List (String × RetentionPolicy)
  backups : List Backup
deriving DecidableEq

/-- `getRetentionPolicy`: `SELECT * FROM RetentionPolicies WHERE Id = ?`,
first row or null. -/
def getRetentionPolicy (policies : List (String × RetentionPolicy))
    (id : String) : Option RetentionPolicy :=
  (policies.find? (fun p => p.1 == id)).map Prod.snd

/-- `retentionPolicyId || 'default'`: absent or empty ids fall back to the
string `"default"`, any other explicit id is used as given. -/
def resolvePolicyId (retentionPolicyId : Option String) : String :=
  match retentionPolicyId with
  | none => "default"
  | some s => if s = "" then "default" else s

/-- `SELECT * FROM BackupExecutions WHERE DatabaseConfigId = ? AND
Status = 'completed' ORDER BY StartedAt DESC`. -/
def completedBackupsFor (rows : List Backup) (databaseConfigId : String) :
    List Backup :=
  sortDesc (rows.filter
    (fun b => b.DatabaseConfigId == databaseConfigId && b.Status == BackupStatus.completed))

/-- `deleteBackupRecord`: `DELETE FROM BackupExecutions WHERE Id = ?`. -/
def deleteBackupRecord (rows : List Backup) (backupId : String) : List Backup :=
  rows.filter (fun r => r.Id != backupId)

/-- The deletion loop of `applyRetentionPolicy`: walk the fetched completed
backups, and for each one whose id is not in the keep-set delete its catalog
row and count it (local-file and S3 deletion are log-and-continue side
effects with no catalog footprint). -/
def retentionDeleteLoop (toKeep : Finset String) (backups : List Backup)
    (rows : List Backup) : List Backup × Nat :=
  backups.foldl
    (fun acc b =>
      if b.Id ∈ toKeep then acc else (deleteBackupRecord acc.1 b.Id, acc.2 + 1))
    (rows, 0)

/-- `applyRetentionPolicy`: resolve the policy id (no-op `{0, 0}` when the
lookup misses), fetch the target's completed backups (no-op when empty),
compute the keep-set, delete everything outside it, and return the deleted
and kept counts. -/
def applyRetentionPolicy (F : TierFloors) (st : RetentionState)
    (databaseConfigId : String) (retentionPolicyId : Option String) :
    RetentionState × Nat × Nat :=
  match getRetentionPolicy st.policies (resolvePolicyId retentionPolicyId) with
  | none => (st, 0, 0)
  | some policy =>
    let backups := completedBackupsFor st.backups databaseConfigId
    if backups.isEmpty then (st, 0, 0)
    else
      let toKeep := determineBackupsToKeep F backups policy
      let result := retentionDeleteLoop toKeep backups st.backups
      ({ st with backups := result.1 }, result.2, toKeep.card)

/-- `previewRetentionPolicy`: same policy resolution and keep-set
computation, returning the completed backups partitioned by membership of
their id in the keep-set, mutating nothing. -/
def previewRetentionPolicy (F : TierFloors) (st : RetentionState)
    (databaseConfigId : String) (retentionPolicyId : Option String) :
    List Backup × List Backup :=
  match getRetentionPolicy st.policies (resolvePolicyId retentionPolicyId) with
  | none => ([], [])
  | some policy =>
    let backups := completedBackupsFor st.backups databaseConfigId
    let toKeepIds := determineBackupsToKeep F backups policy
    (backups.filter (fun b => decide (b.Id ∈ toKeepIds)),
     backups.filter (fun b => !decide (b.Id ∈ toKeepIds)))

/-- Latest-starting artifact of its bucket in the tier with bucket-start
function `f`, whose bucket is among the `K` newest occupied buckets: the
spec-side description of one tier's selection. -/
def keptByTier (f : Nat → Nat) (K : Nat) (l : List Backup) (b : Backup) : Prop :=
  0 < K ∧ b ∈ l ∧
    (∀ c ∈ l, f c.StartedAt = f b.StartedAt → c.StartedAt ≤ b.StartedAt) ∧
    (((l.map (fun c => f c.StartedAt)).toFinset).filter
      (fun q => f b.StartedAt < q)).card < K

/-! ### Retention with explicit catalog fallibility

`applyRetentionPolicy` wraps no part of its body in try/catch.  Local-file
and S3 deletion failures are caught inside their helpers
(`deleteLocalBackup`, `deleteS3Backup`), but `deleteBackupRecord` runs a
bare SQL `DELETE`; the variant below makes that one source of exceptions
explicit so propagation behaviour can be stated. -/

/-- Exception-injection environment: which backup ids the catalog `DELETE`
throws for. -/
structure RetentionEnv where
  deleteRecordFails : String → Bool

/-- `deleteBackupRecord`, with the possibility that the catalog statement
throws. -/
def deleteBackupRecordE (env : RetentionEnv) (rows : List Backup)
    (backupId : String) : Except String (List Backup) :=
  if env.deleteRecordFails backupId then
    Except.error "CatalogError: DELETE FROM BackupExecutions failed"
  else
    Except.ok (deleteBackupRecord rows backupId)

/-- The deletion loop of `applyRetentionPolicy` with fallible catalog
deletes: there is no surrounding catch, so the first failure aborts the
loop and escapes. -/
def retentionDeleteLoopE (env : RetentionEnv) (toKeep : Finset String) :
    List Backup → List Backup → Nat → Except String (List Backup × Nat)
  | [], rows, n => Except.ok (rows, n)
  | b :: rest, rows, n =>
    if b.Id ∈ toKeep then retentionDeleteLoopE env toKeep rest rows n
    else
      match deleteBackupRecordE env rows b.Id with
      | Except.error e => Except.error e
      | Except.ok rows2 => retentionDeleteLoopE env toKeep rest rows2 (n + 1)

/-- `applyRetentionPolicy` with fallible catalog deletes.  The control flow
is that of the source function: no handler stands between the deletion loop
and the caller, so a catalog error becomes the function's own rejection. -/
def applyRetentionPolicyE (F : TierFloors) (env : RetentionEnv)
    (st : RetentionState) (databaseConfigId : String)
    (retentionPolicyId : Option String) :
    Except String (RetentionState × Nat × Nat) :=
  match getRetentionPolicy st.policies (resolvePolicyId retentionPolicyId) with
  | none => Except.ok (st, 0, 0)
  | some policy =>
    let backups := completedBackupsFor st.backups databaseConfigId
    if backups.isEmpty then Except.ok (st, 0, 0)
    else
      let toKeep := determineBackupsToKeep F backups policy
      match retentionDeleteLoopE env toKeep backups st.backups 0 with
      | Except.error e => Except.error e
      | Except.ok result =>
        Except.ok ({ st with backups := result.1 }, result.2, toKeep.card)

/-! ### Engine adapters (`src/lib/backup/mysql.ts`, `postgresql.ts`) -/

/-- The needle `'error'` of the stderr heuristics. -/
def errorChars : List Char := ['e', 'r', 'r', 'o', 'r']

/-- The needle `'ERROR'` of the postgres stderr heuristic. -/
def errorCharsUpper : List Char := ['E', 'R', 'R', 'O', 'R']

/-- JavaScript `String.prototype.includes`: does `needle` occur as a
contiguous substring of the haystack? -/
def containsSub (needle : List Char) : List Char → Bool
  | [] => needle.isEmpty
  | c :: rest => needle.isPrefixOf (c :: rest) || containsSub needle rest

/-- The mysql adapter's stderr test:
`message.toLowerCase().includes('error')`. -/
def mysqlLineIsError (line : List Char) : Bool :=
  containsSub errorChars (line.map Char.toLower)

/-- The postgres adapter's stderr test:
`message.includes('error') || message.includes('ERROR')`. -/
def postgresLineIsError (line : List Char) : Bool :=
  containsSub errorChars line || containsSub errorCharsUpper line

/-- The stderr handler shared by both adapters: a matching chunk sets the
error flag and is appended to the error buffer; other chunks are forwarded
as progress only. -/
def scanStderr (isErrLine : List Char → Bool) (lines : List (List Char)) :
    Bool × List Char :=
  lines.foldl
    (fun acc message =>
      if isErrLine message then (true, acc.2 ++ message) else acc)
    (false, [])

/-- Behaviour of one dump sub-process run: whether `spawn` failed, the exit
code reported (null for signal exits), the stderr chunks, and the bytes
written to standard output. -/
structure DumpRun where
  launchFails : Bool
  exitCode : Option Int
  stderrLines : List (List Char)
  stdoutBytes : List Nat
deriving DecidableEq

/-- The metadata an adapter resolves with.  `fileBytes` models the content
written at `filePath` (always the gzip image of the dump's stdout, since the
executor invokes the adapters with `compress: true`). -/
structure BackupMetadata where
  filePath : String
  fileBytes : List Nat
  fileSizeBytes : Nat
  checksum : String
  compressionUsed : String
deriving DecidableEq

/-- Settlement of one adapter promise: spawn failure rejects; a nonzero
(non-null) exit code rejects with the exit message; an error-flagged stderr
rejects after the pipeline; otherwise resolve with size, digest of the
uncompressed stdout bytes, and compression marker. -/
def adapterSettle (gzip : List Nat → List Nat) (sha256hex : List Nat → String)
    (programName : String) (failPrefix : String) (isErrLine : List Char → Bool)
    (run : DumpRun) (outputPath : String) : Except (List Char) BackupMetadata :=
  let scanned := scanStderr isErrLine run.stderrLines
  if run.launchFails then
    Except.error (("Failed to start " ++ programName).toList)
  else
    let finishPipeline : Except (List Char) BackupMetadata :=
      if scanned.1 then
        Except.error ((failPrefix ++ " backup failed: ").toList ++ scanned.2)
      else
        Except.ok
          { filePath := outputPath ++ ".gz"
            fileBytes := gzip run.stdoutBytes
            fileSizeBytes := (gzip run.stdoutBytes).length
            checksum := sha256hex run.stdoutBytes
            compressionUsed := "gzip" }
    match run.exitCode with
    | some c =>
      if c = 0 then finishPipeline
      else
        Except.error
          ((programName ++ " exited with code ").toList
            ++ (toString c).toList ++ (": ").toList ++ scanned.2)
    | none => finishPipeline

/-- `executeMySQLBackup`: mysqldump with the case-insensitive stderr
heuristic. -/
def executeMySQLBackup (gzip : List Nat → List Nat)
    (sha256hex : List Nat → String) (run : DumpRun) (outputPath : String) :
    Except (List Char) BackupMetadata :=
  adapterSettle gzip sha256hex "mysqldump" "MySQL" mysqlLineIsError run outputPath

/-- `executePostgresBackup`: pg_dump with the literal
`'error' || 'ERROR'` stderr heuristic. -/
def executePostgresBackup (gzip : List Nat → List Nat)
    (sha256hex : List Nat → String) (run : DumpRun) (outputPath : String) :
    Except (List Char) BackupMetadata :=
  adapterSettle gzip sha256hex "pg_dump" "PostgreSQL" postgresLineIsError run
    outputPath

/-! ### Backup executor (`src/lib/backup/index.ts`) -/

/-- The columns of a `DatabaseConfigs` row the executor reads. -/
structure DatabaseConfig where
  Name : String
  DbType : String
deriving DecidableEq

/-- The input of `executeBackup`. -/
structure BackupExecutionInput where
  DatabaseConfigId : String
  BackupType : String
  S3UploadEnabled : Option Bool
deriving DecidableEq

/-- Terminal status of an execution record in the model (the `cancelled`
value of the column is never written by this core). -/
inductive RecStatus where
  | running
  | completed
  | failed
deriving DecidableEq, Repr

/-- The `BackupExecutions` row for one execution, as created running and
mutated once at the terminal transition.  `LocalFileBytes` models the file
at `LocalPath` by its content. -/
structure ExecRecord where
  Status : RecStatus
  FileName : Option String
  FileSizeBytes : Option Nat
  LocalFileBytes : Option (List Nat)
  S3Uploaded : Bool
  CompletedAt : Option Nat
  DurationSeconds : Option Nat
  Checksum : Option String
  ErrorMessage : Option (List Char)
deriving DecidableEq

/-- The value `executeBackup` returns to its caller. -/
structure BackupResult where
  success : Bool
  error : Option (List Char)
deriving DecidableEq

/-- Everything outside the executor that one `executeBackup` call observes:
whether the initial catalog insert throws, the config lookup, the dump
sub-process behaviour, the S3 situation, wall-clock instants and the
generated name fragments. -/
structure BackupEnv where
  createFails : Bool
  dbConfig : Option DatabaseConfig
  dump : DumpRun
  s3ConfigExists : Bool
  uploadOk : Bool
  startMs : Nat
  endMs : Nat
  timestamp : String
  shortId : String

/-- `generateBackupFileName`:
`{databaseName}_{backupType}_{timestamp}_{id}.{extension}`. -/
def generateBackupFileName (databaseName backupType timestamp shortId
    extension : String) : String :=
  databaseName ++ "_" ++ backupType ++ "_" ++ timestamp ++ "_" ++ shortId
    ++ "." ++ extension

/-- The freshly inserted running record. -/
def runningBackupRecord : ExecRecord where
  Status := RecStatus.running
  FileName := none
  FileSizeBytes := none
  LocalFileBytes := none
  S3Uploaded := false
  CompletedAt := none
  DurationSeconds := none
  Checksum := none
  ErrorMessage := none

/-- The body of `executeBackup`'s try block: resolve the config, build the
file name, run the engine-specific adapter, optionally upload, and produce
the completed terminal record. -/
def backupTryBody (gzip : List Nat → List Nat) (sha256hex : List Nat → String)
    (env : BackupEnv) (input : BackupExecutionInput) :
    Except (List Char) (BackupResult × ExecRecord) :=
  match env.dbConfig with
  | none => Except.error ("Database configuration not found").toList
  | some database =>
    let extension := if database.DbType = "postgresql" then "dump" else "sql"
    let fileName := generateBackupFileName database.Name input.BackupType
      env.timestamp env.shortId extension
    let dumpResult : Except (List Char) BackupMetadata :=
      if database.DbType = "postgresql" then
        executePostgresBackup gzip sha256hex env.dump fileName
      else if database.DbType = "mysql" then
        executeMySQLBackup gzip sha256hex env.dump fileName
      else
        Except.error (("Unsupported database type: " ++ database.DbType).toList)
    match dumpResult with
    | Except.error e => Except.error e
    | Except.ok metadata =>
      let durationSeconds := (env.endMs - env.startMs) / 1000
      let s3Uploaded :=
        if input.S3UploadEnabled ≠ some false then
          if env.s3ConfigExists then env.uploadOk else false
        else false
      Except.ok
        ({ success := true, error := none },
          { Status := RecStatus.completed
            FileName := some (fileName ++ ".gz")
            FileSizeBytes := some metadata.fileSizeBytes
            LocalFileBytes := some metadata.fileBytes
            S3Uploaded := s3Uploaded
            CompletedAt := some env.endMs
            DurationSeconds := some durationSeconds
            Checksum := some metadata.checksum
            ErrorMessage := none })

/-- `executeBackup`: insert the running record (the one statement outside
the try block), then run the body under a catch that converts any rejection
into a failed terminal record plus a failure result. -/
def executeBackup (gzip : List Nat → List Nat) (sha256hex : List Nat → String)
    (env : BackupEnv) (input : BackupExecutionInput) :
    Except String (BackupResult × ExecRecord) :=
  if env.createFails then
    Except.error "CatalogError: INSERT INTO BackupExecutions failed"
  else
    match backupTryBody gzip sha256hex env input with
    | Except.ok out => Except.ok out
    | Except.error msg =>
      Except.ok
        ({ success := false, error := some msg },
          { runningBackupRecord with
              Status := RecStatus.failed
              ErrorMessage := some msg
              CompletedAt := some env.endMs })

/-! ### Restore executor (`src/lib/restore/index.ts`) -/

/-- Behaviour of one restore sub-process run. -/
structure RestoreRun where
  launchFails : Bool
  streamFails : Bool
  exitCode : Option Int
deriving DecidableEq

/-- The input of `executeRestore`. -/
structure RestoreExecutionInput where
  DatabaseConfigId : String
  SourceType : String
  SourcePath : Option String
  S3Bucket : Option String
  S3Key : Option String
  cleanBeforeRestore : Bool
deriving DecidableEq

/-- The `RestoreExecutions` row for one execution at its terminal
transition. -/
structure RestoreRecord where
  Status : RecStatus
  ErrorMessage : Option (List Char)
  DurationSeconds : Option Nat
deriving DecidableEq

/-- The value `executeRestore` returns to its caller. -/
structure RestoreResult where
  success : Bool
  error : Option (List Char)
deriving DecidableEq

/-- Everything outside the executor that one `executeRestore` call
observes. -/
structure RestoreEnv where
  createFails : Bool
  dbConfig : Option DatabaseConfig
  s3ConfigExists : Bool
  downloadOk : Bool
  sourceExists : Bool
  run : RestoreRun
  startMs : Nat
  endMs : Nat

/-- Settlement of one restore sub-process promise (`pg_restore` / `mysql`):
spawn failure or pipeline failure rejects; exit code 0 resolves; any other
close (nonzero or null) rejects. -/
def restoreSettle (programName : String) (run : RestoreRun) :
    Except (List Char) Unit :=
  if run.launchFails then
    Except.error (("Failed to start " ++ programName).toList)
  else if run.streamFails then
    Except.error ("Failed to stream backup file").toList
  else
    match run.exitCode with
    | some 0 => Except.ok ()
    | some c =>
      Except.error
        ((programName ++ " exited with code " ++ toString c).toList)
    | none =>
      Except.error ((programName ++ " exited with code null").toList)

/-- The body of `executeRestore`'s try block: resolve config and source,
then stream the decompressed file into the engine-specific sub-process. -/
def restoreTryBody (env : RestoreEnv) (input : RestoreExecutionInput) :
    Except (List Char) (RestoreResult × RestoreRecord) :=
  match env.dbConfig with
  | none => Except.error ("Database configuration not found").toList
  | some database =>
    let sourceOk : Except (List Char) Unit :=
      if input.SourceType = "s3" then
        if input.S3Bucket.isNone || input.S3Key.isNone then
          Except.error ("S3 bucket and key are required for S3 restore").toList
        else if !env.s3ConfigExists then
          Except.error ("No S3 configuration found").toList
        else if !env.downloadOk then
          Except.error ("Failed to download from S3").toList
        else Except.ok ()
      else if input.SourceType = "local" then
        match input.SourcePath with
        | none => Except.error ("Source path is required for local restore").toList
        | some p =>
          if !env.sourceExists then
            Except.error (("Backup file not found: ").toList ++ p.toList)
          else Except.ok ()
      else
        Except.error (("Unsupported source type: " ++ input.SourceType).toList)
    match sourceOk with
    | Except.error e => Except.error e
    | Except.ok _ =>
      let restored : Except (List Char) Unit :=
        if database.DbType = "postgresql" then restoreSettle "pg_restore" env.run
        else if database.DbType = "mysql" then restoreSettle "mysql" env.run
        else
          Except.error (("Unsupported database type: " ++ database.DbType).toList)
      match restored with
      | Except.error e => Except.error e
      | Except.ok _ =>
        Except.ok
          ({ success := true, error := none },
            { Status := RecStatus.completed
              ErrorMessage := none
              DurationSeconds := some ((env.endMs - env.startMs) / 1000) })

/-- `executeRestore`: insert the running record, then run the body under a
catch that converts any rejection into a failed terminal record plus a
failure result. -/
def executeRestore (env : RestoreEnv) (input : RestoreExecutionInput) :
    Except String (RestoreResult × RestoreRecord) :=
  if env.createFails then
    Except.error "CatalogError: INSERT INTO RestoreExecutions failed"
  else
    match restoreTryBody env input with
    | Except.ok out => Except.ok out
    | Except.error msg =>
      Except.ok
        ({ success := false, error := some msg },
          { Status := RecStatus.failed
            ErrorMessage := some msg
            DurationSeconds := none })

/-! ### Schedule coordinator (`src/lib/scheduler/index.ts`) -/

/-- A `BackupSchedules` row, restricted to what the coordinator reads. -/
structure BackupSchedule where
  Id : String
  CronExpression : String
  Enabled : Bool
deriving DecidableEq, Repr

/-- The `activeJobs` map: schedule id to the installed timer, modelled by
the schedule the timer was created from (which carries the cron
expression). -/
abbrev SchedulerJobs := List (String × BackupSchedule)

/-- `scheduleBackupJob`: reject invalid cron expressions; stop and remove
any existing timer for the schedule id; install a timer for the given
schedule. -/
def scheduleBackupJob (validate : String → Bool) (jobs : SchedulerJobs)
    (schedule : BackupSchedule) : SchedulerJobs :=
  if !validate schedule.CronExpression then jobs
  else
    let jobs1 :=
      if (List.map Prod.fst jobs).contains schedule.Id then
        jobs.filter (fun p => p.1 != schedule.Id)
      else jobs
    jobs1 ++ [(schedule.Id, schedule)]

/-- `unscheduleBackupJob`: stop and remove the timer when present, no-op
otherwise. -/
def unscheduleBackupJob (jobs : SchedulerJobs) (scheduleId : String) :
    SchedulerJobs :=
  if (List.map Prod.fst jobs).contains scheduleId then
    jobs.filter (fun p => p.1 != scheduleId)
  else jobs

/-- `reloadSchedule`: re-fetch the schedule (`WHERE Id = ? AND Enabled = 1`);
install when found, uninstall otherwise. -/
def reloadSchedule (validate : String → Bool) (catalog : List BackupSchedule)
    (jobs : SchedulerJobs) (scheduleId : String) : SchedulerJobs :=
  match catalog.find? (fun s => s.Id == scheduleId && s.Enabled) with
  | some schedule => scheduleBackupJob validate jobs schedule
  | none => unscheduleBackupJob jobs scheduleId

/-- `initializeScheduler`: stop and clear every installed timer, then
install one timer per enabled schedule of the catalog. -/
def initializeScheduler (validate : String → Bool)
    (catalog : List BackupSchedule) : SchedulerJobs :=
  (catalog.filter (fun s => s.Enabled)).foldl (scheduleBackupJob validate) []

/-- One public operation of the schedule coordinator. -/
inductive SchedOp where
  | install (schedule : BackupSchedule)
  | uninstall (scheduleId : String)
  | reload (scheduleId : String)
  | initAll
deriving DecidableEq

/-- Apply one coordinator operation to the timer map. -/
def applySchedOp (validate : String → Bool) (catalog : List BackupSchedule)
    (jobs : SchedulerJobs) : SchedOp → SchedulerJobs
  | SchedOp.install schedule => scheduleBackupJob validate jobs schedule
  | SchedOp.uninstall scheduleId => unscheduleBackupJob jobs scheduleId
  | SchedOp.reload scheduleId => reloadSchedule validate catalog jobs scheduleId
  | SchedOp.initAll => initializeScheduler validate catalog

/-- Apply a sequence of coordinator operations. -/
def applySchedOps (validate : String → Bool) (catalog : List BackupSchedule)
    (jobs : SchedulerJobs) (ops : List SchedOp) : SchedulerJobs :=
  ops.foldl (applySchedOp validate catalog) jobs

/-! ### Auxiliary definitions for the analysis -/

/-- The backup a bucket map stores after one more `Map.set` observation of
`b` against a previously stored value: keep the stored one unless `b`
started strictly later. -/
def pickNewer (o : Option Backup) (b : Backup) : Backup :=
  match o with
  | none => b
  | some c => if c.StartedAt < b.StartedAt then b else c

/-- The winner of bucket `q` over a list of backups: the accumulated
`Map.set` decisions restricted to the backups whose bucket start is `q`. -/
def bucketBest (f : Nat → Nat) (q : Nat) (l : List Backup) : Option Backup :=
  (l.filter (fun b => f b.StartedAt == q)).foldl
    (fun o b => some (pickNewer o b)) none

/-- The schedule ids holding an installed timer. -/
def schedKeys (jobs : SchedulerJobs) : List String := jobs.map Prod.fst

/-! ### Concrete instances used for evaluation -/

/-- A completed backup row of target `db1`. -/
def demoBackup (id : String) (t : Nat) : Backup :=
  ⟨id, "db1", BackupStatus.completed, t⟩

/-- Three completed backups in three consecutive hour buckets. -/
def c1Backups : List Backup :=
  [demoBackup "a" 100, demoBackup "b" 4000, demoBackup "c" 7300]

/-- A catalog with a system `"default"` policy and one completed backup. -/
def c3State : RetentionState :=
  ⟨[("default", ⟨1, 0, 0, 0, 0⟩)], [demoBackup "b1" 5]⟩

/-- An environment in which every catalog `DELETE` throws. -/
def c4Env : RetentionEnv := ⟨fun _ => true⟩

/-- A catalog whose default policy keeps nothing, over one completed
backup, so a retention run must delete. -/
def c4State : RetentionState :=
  ⟨[("default", ⟨0, 0, 0, 0, 0⟩)], [demoBackup "b1" 5]⟩

/-- A catalog with no retention policies at all but one completed backup. -/
def c8MissState : RetentionState :=
  ⟨[], [demoBackup "b1" 5]⟩

/-- A catalog with a resolving default policy and two completed backups in
the same hour bucket. -/
def c8KeepState : RetentionState :=
  ⟨[("default", ⟨1, 0, 0, 0, 0⟩)], [demoBackup "b1" 5, demoBackup "b2" 9]⟩

/-- A catalog for exercising a full retention run: hourly keep 1 over
two hour buckets, plus a foreign row of another target. -/
def c10State : RetentionState :=
  ⟨[("default", ⟨1, 0, 0, 0, 0⟩)],
    [demoBackup "b1" 100, demoBackup "b2" 4000,
      ⟨"x1", "db2", BackupStatus.completed, 50⟩]⟩

/-- Cron validator accepting exactly the two demo expressions. -/
def demoValidate (e : String) : Bool :=
  e == "0 * * * *" || e == "30 1 * * *"

/-- First install of schedule `s1`. -/
def demoSchedule1 : BackupSchedule := ⟨"s1", "0 * * * *", true⟩

/-- Second install of schedule `s1`, with a different cron expression. -/
def demoSchedule2 : BackupSchedule := ⟨"s1", "30 1 * * *", true⟩

/-- Concrete streaming compressor for evaluation: prepend one marker
byte. -/
def demoGzip (bs : List Nat) : List Nat := 0 :: bs

/-- Concrete decompressor inverting `demoGzip`. -/
def demoGunzip (bs : List Nat) : List Nat := bs.tail

/-- Concrete digest function for evaluation. -/
def demoSha (bs : List Nat) : String := toString bs

/-- A successful mysql dump run: clean exit, quiet stderr, three payload
bytes. -/
def demoOkEnv : BackupEnv where
  createFails := false
  dbConfig := some ⟨"mydb", "mysql"⟩
  dump := ⟨false, some 0, [], [1, 2, 3]⟩
  s3ConfigExists := false
  uploadOk := false
  startMs := 1000
  endMs := 3000
  timestamp := "2026-01-01"
  shortId := "abcd1234"

/-- A dump run exiting with code 2 and no error-matching stderr line. -/
def demoFailEnv : BackupEnv where
  createFails := false
  dbConfig := some ⟨"mydb", "mysql"⟩
  dump := ⟨false, some 2, [("fetching tables").toList], [1, 2, 3]⟩
  s3ConfigExists := false
  uploadOk := false
  startMs := 1000
  endMs := 3000
  timestamp := "2026-01-01"
  shortId := "abcd1234"

/-- A manual backup request for the demo target. -/
def demoInput : BackupExecutionInput :=
  ⟨"cfg1", "manual", some false⟩

/-- A restore environment whose running-record insert succeeds and whose
source path is missing. -/
def demoRestoreEnv : RestoreEnv where
  createFails := false
  dbConfig := some ⟨"mydb", "mysql"⟩
  s3ConfigExists := false
  downloadOk := false
  sourceExists := false
  run := ⟨false, false, some 0⟩
  startMs := 1000
  endMs := 3000

/-- A local-source restore request. -/
def demoRestoreInput : RestoreExecutionInput :=
  ⟨"cfg1", "local", some "/backups/f.sql.gz", none, none, false⟩

/-- An environment in which no catalog `DELETE` throws. -/
def demoQuietEnv : RetentionEnv := ⟨fun _ => false⟩

/-! ## Properties of the stderr heuristics -/

theorem scanStderr_fst (e : List Char → Bool) (lines : List (List Char)) :
    (scanStderr e lines).1 = lines.any e := by
  have aux : ∀ (ls : List (List Char)) (acc : Bool × List Char),
      (ls.foldl (fun acc message =>
        if e message then (true, acc.2 ++ message) else acc) acc).1
        = (acc.1 || ls.any e) := by
    intro ls
    induction ls with
    | nil => intro acc; simp
    | cons m rest ih =>
      intro acc
      by_cases hm : e m
      · simp [hm, ih]
      · simp [hm, ih]
  simpa [scanStderr] using aux lines (false, [])

theorem scanStderr_snd (e : List Char → Bool) (lines : List (List Char)) :
    (scanStderr e lines).2 = (lines.filter e).flatten := by
  have aux : ∀ (ls : List (List Char)) (acc : Bool × List Char),
      (ls.foldl (fun acc message =>
        if e message then (true, acc.2 ++ message) else acc) acc).2
        = acc.2 ++ (ls.filter e).flatten := by
    intro ls
    induction ls with
    | nil => intro acc; simp
    | cons m rest ih =>
      intro acc
      by_cases hm : e m
      · simp [hm, ih]
      · simp [hm, ih]
  simpa [scanStderr] using aux lines (false, [])

theorem isPrefixOf_map_of_isPrefixOf (f : Char → Char) :
    ∀ (n h : List Char), n.isPrefixOf h = true →
      (n.map f).isPrefixOf (h.map f) = true := by
  intro n
  induction n with
  | nil => intro h _; simp [List.isPrefixOf]
  | cons c n ih =>
    intro h hp
    cases h with
    | nil => simp [List.isPrefixOf] at hp
    | cons d h =>
      simp only [List.isPrefixOf, Bool.and_eq_true, beq_iff_eq] at hp
      simp only [List.map, List.isPrefixOf, Bool.and_eq_true, beq_iff_eq]
      exact ⟨by rw [hp.1], ih h hp.2⟩

theorem containsSub_map_of_containsSub (f : Char → Char) :
    ∀ (n h : List Char), containsSub n h = true →
      containsSub (n.map f) (h.map f) = true := by
  intro n h
  induction h with
  | nil =>
    intro hc
    simp only [containsSub, List.isEmpty_iff] at hc
    subst hc
    simp [containsSub]
  | cons c rest ih =>
    intro hc
    simp only [containsSub, Bool.or_eq_true] at hc
    rcases hc with hc | hc
    · have := isPrefixOf_map_of_isPrefixOf f n (c :: rest) hc
      simp only [List.map, containsSub, Bool.or_eq_true]
      exact Or.inl (by simpa using this)
    · simp only [List.map, containsSub, Bool.or_eq_true]
      exact Or.inr (ih hc)

theorem postgresLineIsError_imp_mysql (line : List Char)
    (h : postgresLineIsError line = true) : mysqlLineIsError line = true := by
  have hlow : errorChars.map Char.toLower = errorChars := by decide
  have hup : errorCharsUpper.map Char.toLower = errorChars := by decide
  simp only [postgresLineIsError, Bool.or_eq_true] at h
  rcases h with h | h
  · have := containsSub_map_of_containsSub Char.toLower errorChars line h
    rw [hlow] at this
    exact this
  · have := containsSub_map_of_containsSub Char.toLower errorCharsUpper line h
    rw [hup] at this
    exact this

/-- C6 counterexample: the stderr chunk `"Error: connection lost"` carries
the substring `"error"` in mixed casing; the mysql adapter's heuristic sets
the error flag on it but the postgres adapter's heuristic does not, so the
two adapters do not share one case-insensitive match. -/
theorem c6_mixed_case_counterexample :
    (scanStderr mysqlLineIsError [("Error: connection lost").toList]).1 = true ∧
    (scanStderr postgresLineIsError [("Error: connection lost").toList]).1 = false := by
  decide

/-- C6 (amended): for both adapters the error flag is set exactly when some
stderr chunk matches that adapter's heuristic and the error buffer is the
concatenation of the matching chunks, the remaining chunks being forwarded
as progress; the mysql heuristic lowercases the chunk before searching for
`"error"` while the postgres heuristic searches only for the literal
`"error"` or `"ERROR"`, so every postgres match is a mysql match but a
mixed casing such as `"Error"` is matched by the mysql adapter only. -/
theorem c6_stderr_error_matching (lines : List (List Char)) :
    (scanStderr mysqlLineIsError lines).1 = lines.any mysqlLineIsError ∧
    (scanStderr postgresLineIsError lines).1 = lines.any postgresLineIsError ∧
    (scanStderr mysqlLineIsError lines).2 = (lines.filter mysqlLineIsError).flatten ∧
    (scanStderr postgresLineIsError lines).2 = (lines.filter postgresLineIsError).flatten ∧
    (∀ line, postgresLineIsError line = true → mysqlLineIsError line = true) ∧
    mysqlLineIsError ("Error").toList = true ∧
    postgresLineIsError ("Error").toList = false :=
  ⟨scanStderr_fst _ lines, scanStderr_fst _ lines,
    scanStderr_snd _ lines, scanStderr_snd _ lines,
    postgresLineIsError_imp_mysql, by decide, by decide⟩

/-- Witness for the amended C6 statement at a concrete stderr stream. -/
theorem c6_stderr_error_matching_witness :
    (scanStderr mysqlLineIsError [("Error").toList, ("done").toList]).1 =
        [("Error").toList, ("done").toList].any mysqlLineIsError ∧
      (scanStderr postgresLineIsError [("Error").toList, ("done").toList]).1 =
        [("Error").toList, ("done").toList].any postgresLineIsError ∧
      (scanStderr mysqlLineIsError [("Error").toList, ("done").toList]).2 =
        ([("Error").toList, ("done").toList].filter mysqlLineIsError).flatten ∧
      (scanStderr postgresLineIsError [("Error").toList, ("done").toList]).2 =
        ([("Error").toList, ("done").toList].filter postgresLineIsError).flatten ∧
      (∀ line, postgresLineIsError line = true → mysqlLineIsError line = true) ∧
      mysqlLineIsError ("Error").toList = true ∧
      postgresLineIsError ("Error").toList = false :=
  c6_stderr_error_matching [("Error").toList, ("done").toList]

/-! ## Policy resolution and propagation behaviour of the retention engine -/

/-- C3 counterexample: with the system `"default"` policy present and one
completed backup, calling `applyRetentionPolicy` with the unresolvable
explicit id `"missing"` is a no-op returning zero counts even though the
`"default"` policy resolves (and would have kept one backup), so no
fallback from an unresolved explicit id to `"default"` happens. -/
theorem c3_no_fallback_counterexample :
    applyRetentionPolicy fixedFloors c3State "db1" (some "missing") = (c3State, 0, 0) ∧
    getRetentionPolicy c3State.policies "default" = some ⟨1, 0, 0, 0, 0⟩ ∧
    applyRetentionPolicy fixedFloors c3State "db1" none ≠ (c3State, 0, 0) := by
  refine ⟨by decide, by decide, ?_⟩
  decide

/-- C3 (amended): the `"default"` policy id is substituted only when no
explicit id (or an empty one) is given; an explicit id that does not
resolve makes the whole operation a no-op returning zero counts, without
consulting the default policy, and the no-explicit-id call coincides with
an explicit `"default"` call. -/
theorem c3_policy_resolution (F : TierFloors) (st : RetentionState)
    (db s : String) (hne : s ≠ "")
    (hmiss : getRetentionPolicy st.policies s = none) :
    applyRetentionPolicy F st db (some s) = (st, 0, 0) ∧
      ∀ db2, applyRetentionPolicy F st db2 none =
        applyRetentionPolicy F st db2 (some "default") := by
  have hres : resolvePolicyId (some s) = s := by simp [resolvePolicyId, hne]
  refine ⟨?_, ?_⟩
  · simp [applyRetentionPolicy, hres, hmiss]
  · intro db2
    have h1 : resolvePolicyId none = "default" := rfl
    have h2 : resolvePolicyId (some "default") = "default" := rfl
    unfold applyRetentionPolicy
    rw [h1, h2]

/-- Witness for the amended C3 statement at a concrete catalog. -/
theorem c3_policy_resolution_witness :
    (("missing" : String) ≠ "" ∧
      getRetentionPolicy c3State.policies "missing" = none) ∧
    (applyRetentionPolicy fixedFloors c3State "db1" (some "missing") = (c3State, 0, 0) ∧
      ∀ db2, applyRetentionPolicy fixedFloors c3State db2 none =
        applyRetentionPolicy fixedFloors c3State db2 (some "default")) :=
  ⟨⟨by decide, by decide⟩,
    c3_policy_resolution fixedFloors c3State "db1" "missing" (by decide) (by decide)⟩

/-- The deletion loop with fallible catalog deletes succeeds whenever no
delete statement throws. -/
theorem retentionDeleteLoopE_ok (env : RetentionEnv)
    (hq : ∀ id, env.deleteRecordFails id = false) (toKeep : Finset String) :
    ∀ (bs rows : List Backup) (n : Nat),
      ∃ out, retentionDeleteLoopE env toKeep bs rows n = Except.ok out := by
  intro bs
  induction bs with
  | nil => exact fun rows n => ⟨(rows, n), rfl⟩
  | cons b rest ih =>
    intro rows n
    by_cases hb : b.Id ∈ toKeep
    · simpa [retentionDeleteLoopE, hb] using ih rows n
    · simpa [retentionDeleteLoopE, hb, deleteBackupRecordE, hq] using
        ih (deleteBackupRecord rows b.Id) (n + 1)

/-- C4 counterexample: with a resolving policy that keeps nothing, one
completed backup, and a catalog whose `DELETE` statement throws,
`applyRetentionPolicy` rejects with the catalog error instead of returning
a result, so `ApplyRetention` does propagate exceptions to its caller. -/
theorem c4_retention_propagates_counterexample :
    applyRetentionPolicyE fixedFloors c4Env c4State "db1" none =
      Except.error "CatalogError: DELETE FROM BackupExecutions failed" := by
  rfl

/-- C4 (amended): `RunBackup` and `RunRestore` convert every error raised
inside their main try block into a failed terminal record plus a returned
failure result and never reject once the initial running-record insert
succeeded; `ApplyRetention` has no such boundary of its own — it only
completes without rejection when no catalog delete throws (its callers
install the catch). -/
theorem c4_error_conversion (gzip : List Nat → List Nat)
    (sha256hex : List Nat → String)
    (benv : BackupEnv) (binput : BackupExecutionInput)
    (renv : RestoreEnv) (rinput : RestoreExecutionInput)
    (F : TierFloors) (eenv : RetentionEnv) (st : RetentionState)
    (db : String) (pid : Option String)
    (hb : benv.createFails = false) (hr : renv.createFails = false)
    (he : ∀ id, eenv.deleteRecordFails id = false) :
    (∀ msg, backupTryBody gzip sha256hex benv binput = Except.error msg →
      executeBackup gzip sha256hex benv binput =
        Except.ok ({ success := false, error := some msg },
          { runningBackupRecord with
              Status := RecStatus.failed
              ErrorMessage := some msg
              CompletedAt := some benv.endMs })) ∧
    (∃ out, executeBackup gzip sha256hex benv binput = Except.ok out) ∧
    (∀ msg, restoreTryBody renv rinput = Except.error msg →
      executeRestore renv rinput =
        Except.ok ({ success := false, error := some msg },
          { Status := RecStatus.failed
            ErrorMessage := some msg
            DurationSeconds := none })) ∧
    (∃ out, executeRestore renv rinput = Except.ok out) ∧
    (∃ out, applyRetentionPolicyE F eenv st db pid = Except.ok out) := by
  refine ⟨?_, ?_, ?_, ?_, ?_⟩
  · intro msg h
    simp [executeBackup, hb, h]
  · cases hcase : backupTryBody gzip sha256hex benv binput with
    | ok out => exact ⟨out, by simp [executeBackup, hb, hcase]⟩
    | error msg =>
      exact ⟨({ success := false, error := some msg },
        { runningBackupRecord with
            Status := RecStatus.failed
            ErrorMessage := some msg
            CompletedAt := some benv.endMs }), by simp [executeBackup, hb, hcase]⟩
  · intro msg h
    simp [executeRestore, hr, h]
  · cases hcase : restoreTryBody renv rinput with
    | ok out => exact ⟨out, by simp [executeRestore, hr, hcase]⟩
    | error msg =>
      exact ⟨({ success := false, error := some msg },
        { Status := RecStatus.failed
          ErrorMessage := some msg
          DurationSeconds := none }), by simp [executeRestore, hr, hcase]⟩
  · cases hpol : getRetentionPolicy st.policies (resolvePolicyId pid) with
    | none => exact ⟨(st, 0, 0), by simp [applyRetentionPolicyE, hpol]⟩
    | some policy =>
      by_cases hemp : (completedBackupsFor st.backups db).isEmpty
      · exact ⟨(st, 0, 0), by simp [applyRetentionPolicyE, hpol, hemp]⟩
      · obtain ⟨out, hout⟩ := retentionDeleteLoopE_ok eenv he
          (determineBackupsToKeep F (completedBackupsFor st.backups db) policy)
          (completedBackupsFor st.backups db) st.backups 0
        exact ⟨({ st with backups := out.1 }, out.2,
            (determineBackupsToKeep F (completedBackupsFor st.backups db) policy).card),
          by simp [applyRetentionPolicyE, hpol, hemp, hout]⟩

/-- Witness for the amended C4 statement at concrete environments. -/
theorem c4_error_conversion_witness :
    (demoOkEnv.createFails = false ∧ demoRestoreEnv.createFails = false ∧
      ∀ id, demoQuietEnv.deleteRecordFails id = false) ∧
    ((∀ msg, backupTryBody demoGzip demoSha demoOkEnv demoInput = Except.error msg →
      executeBackup demoGzip demoSha demoOkEnv demoInput =
        Except.ok ({ success := false, error := some msg },
          { runningBackupRecord with
              Status := RecStatus.failed
              ErrorMessage := some msg
              CompletedAt := some demoOkEnv.endMs })) ∧
    (∃ out, executeBackup demoGzip demoSha demoOkEnv demoInput = Except.ok out) ∧
    (∀ msg, restoreTryBody demoRestoreEnv demoRestoreInput = Except.error msg →
      executeRestore demoRestoreEnv demoRestoreInput =
        Except.ok ({ success := false, error := some msg },
          { Status := RecStatus.failed
            ErrorMessage := some msg
            DurationSeconds := none })) ∧
    (∃ out, executeRestore demoRestoreEnv demoRestoreInput = Except.ok out) ∧
    (∃ out, applyRetentionPolicyE fixedFloors demoQuietEnv c4State "db1" none =
      Except.ok out)) :=
  ⟨⟨rfl, rfl, fun _ => rfl⟩,
    c4_error_conversion demoGzip demoSha demoOkEnv demoInput demoRestoreEnv
      demoRestoreInput fixedFloors demoQuietEnv c4State "db1" none rfl rfl
      (fun _ => rfl)⟩

/-! ## Preview partition -/

/-- C8 counterexample: with no retention policy stored at all and one
completed backup for the target, `previewRetentionPolicy` returns two empty
lists, whose union is not the (non-empty) completed-artifact set, so the
partition property fails for an unresolvable policy id. -/
theorem c8_preview_counterexample :
    previewRetentionPolicy fixedFloors c8MissState "db1" none = ([], []) ∧
    completedBackupsFor c8MissState.backups "db1" ≠ [] := by
  refine ⟨by decide, by decide⟩

/-- C8 (amended): whenever the (default-substituted) policy id resolves to
a stored policy, the two lists returned by `previewRetentionPolicy` are a
partition of the target's completed artifacts — their concatenation is a
permutation of the completed-artifact list and no artifact lies in both;
when no policy resolves both lists are empty. -/
theorem c8_preview_partition (F : TierFloors) (st : RetentionState)
    (db : String) (pid : Option String) (policy : RetentionPolicy)
    (hpol : getRetentionPolicy st.policies (resolvePolicyId pid) = some policy) :
    List.Perm
      ((previewRetentionPolicy F st db pid).1 ++ (previewRetentionPolicy F st db pid).2)
      (completedBackupsFor st.backups db) ∧
    ∀ b ∈ (previewRetentionPolicy F st db pid).1,
      b ∉ (previewRetentionPolicy F st db pid).2 := by
  constructor
  · simp only [previewRetentionPolicy, hpol]
    exact List.filter_append_perm _ _
  · intro b hb1 hb2
    simp only [previewRetentionPolicy, hpol, List.mem_filter] at hb1 hb2
    rcases hb1 with ⟨-, h1⟩
    rcases hb2 with ⟨-, h2⟩
    rw [h1] at h2
    simp at h2

/-- Witness for the amended C8 statement at a concrete catalog. -/
theorem c8_preview_partition_witness :
    (getRetentionPolicy c8KeepState.policies (resolvePolicyId none) =
      some ⟨1, 0, 0, 0, 0⟩) ∧
    (List.Perm
      ((previewRetentionPolicy fixedFloors c8KeepState "db1" none).1 ++
        (previewRetentionPolicy fixedFloors c8KeepState "db1" none).2)
      (completedBackupsFor c8KeepState.backups "db1") ∧
    ∀ b ∈ (previewRetentionPolicy fixedFloors c8KeepState "db1" none).1,
      b ∉ (previewRetentionPolicy fixedFloors c8KeepState "db1" none).2) :=
  ⟨by decide,
    c8_preview_partition fixedFloors c8KeepState "db1" none ⟨1, 0, 0, 0, 0⟩ (by decide)⟩

/-! ## Schedule coordinator invariants -/

theorem schedKeys_filter_ne (jobs : SchedulerJobs) (id : String) :
    id ∉ schedKeys (jobs.filter (fun p => p.1 != id)) := by
  intro h
  simp only [schedKeys, List.mem_map, List.mem_filter, bne_iff_ne] at h
  obtain ⟨p, ⟨-, hne⟩, hid⟩ := h
  exact hne hid

theorem schedKeys_nodup_filter (jobs : SchedulerJobs) (q : String × BackupSchedule → Bool)
    (h : (schedKeys jobs).Nodup) : (schedKeys (jobs.filter q)).Nodup :=
  h.sublist ((List.filter_sublist jobs).map Prod.fst)

theorem schedKeys_append_single (jobs : SchedulerJobs) (id : String) (s : BackupSchedule)
    (h : (schedKeys jobs).Nodup) (h2 : id ∉ schedKeys jobs) :
    (schedKeys (jobs ++ [(id, s)])).Nodup := by
  have hk : schedKeys (jobs ++ [(id, s)]) = schedKeys jobs ++ [id] := by
    simp [schedKeys]
  rw [hk]
  refine h.append (List.nodup_singleton id) ?_
  intro x hx hx2
  simp only [List.mem_singleton] at hx2
  exact h2 (hx2 ▸ hx)

theorem schedKeys_nodup_scheduleBackupJob (v : String → Bool) (jobs : SchedulerJobs)
    (s : BackupSchedule) (h : (schedKeys jobs).Nodup) :
    (schedKeys (scheduleBackupJob v jobs s)).Nodup := by
  unfold scheduleBackupJob
  by_cases hv : v s.CronExpression
  · rw [hv]
    simp only [Bool.not_true, Bool.false_eq_true, if_false]
    by_cases hc : (List.map Prod.fst jobs).contains s.Id
    · rw [if_pos hc]
      exact schedKeys_append_single _ _ _ (schedKeys_nodup_filter jobs _ h)
        (schedKeys_filter_ne jobs s.Id)
    · rw [if_neg hc]
      have h2 : s.Id ∉ schedKeys jobs := by
        intro hmem
        exact hc (by simpa [schedKeys] using hmem)
      exact schedKeys_append_single _ _ _ h h2
  · have hv2 : v s.CronExpression = false := by simpa using hv
    rw [hv2]
    simpa using h

theorem schedKeys_nodup_unscheduleBackupJob (jobs : SchedulerJobs) (id : String)
    (h : (schedKeys jobs).Nodup) :
    (schedKeys (unscheduleBackupJob jobs id)).Nodup := by
  unfold unscheduleBackupJob
  by_cases hc : (List.map Prod.fst jobs).contains id
  · rw [if_pos hc]
    exact schedKeys_nodup_filter jobs _ h
  · rw [if_neg hc]
    exact h

theorem scheduleBackupJob_filter_self (v : String → Bool) (jobs : SchedulerJobs)
    (s : BackupSchedule) (hv : v s.CronExpression = true) :
    (scheduleBackupJob v jobs s).filter (fun p => p.1 == s.Id) = [(s.Id, s)] := by
  unfold scheduleBackupJob
  rw [hv]
  simp only [Bool.not_true, Bool.false_eq_true, if_false]
  by_cases hc : (List.map Prod.fst jobs).contains s.Id
  · rw [if_pos hc, List.filter_append]
    have h1 : (jobs.filter (fun p => p.1 != s.Id)).filter (fun p => p.1 == s.Id) = [] := by
      rw [List.filter_filter, List.filter_eq_nil_iff]
      intro p hp
      simp only [Bool.and_eq_true, beq_iff_eq, bne_iff_ne]
      rintro ⟨h1, h2⟩
      exact h2 h1
    rw [h1]
    simp
  · rw [if_neg hc, List.filter_append]
    have h1 : jobs.filter (fun p => p.1 == s.Id) = [] := by
      rw [List.filter_eq_nil_iff]
      intro p hp
      simp only [beq_iff_eq]
      intro hid
      apply hc
      have : s.Id ∈ List.map Prod.fst jobs := hid ▸ List.mem_map_of_mem Prod.fst hp
      simpa using this
    rw [h1]
    simp

theorem schedKeys_nodup_foldl_schedule (v : String → Bool) :
    ∀ (cat : List BackupSchedule) (js : SchedulerJobs),
      (schedKeys js).Nodup →
      (schedKeys (cat.foldl (scheduleBackupJob v) js)).Nodup := by
  intro cat
  induction cat with
  | nil => exact fun js h => h
  | cons s rest ih =>
    intro js h
    exact ih (scheduleBackupJob v js s) (schedKeys_nodup_scheduleBackupJob v js s h)

theorem schedKeys_nodup_initializeScheduler (v : String → Bool)
    (catalog : List BackupSchedule) :
    (schedKeys (initializeScheduler v catalog)).Nodup :=
  schedKeys_nodup_foldl_schedule v (catalog.filter (fun s => s.Enabled)) []
    List.nodup_nil

theorem schedKeys_nodup_applySchedOp (v : String → Bool)
    (catalog : List BackupSchedule) (jobs : SchedulerJobs) (op : SchedOp)
    (h : (schedKeys jobs).Nodup) :
    (schedKeys (applySchedOp v catalog jobs op)).Nodup := by
  cases op with
  | install s => exact schedKeys_nodup_scheduleBackupJob v jobs s h
  | uninstall id => exact schedKeys_nodup_unscheduleBackupJob jobs id h
  | reload id =>
    show (schedKeys (reloadSchedule v catalog jobs id)).Nodup
    unfold reloadSchedule
    cases catalog.find? (fun s => s.Id == id && s.Enabled) with
    | none => exact schedKeys_nodup_unscheduleBackupJob jobs id h
    | some s => exact schedKeys_nodup_scheduleBackupJob v jobs s h
  | initAll => exact schedKeys_nodup_initializeScheduler v catalog

theorem schedKeys_nodup_applySchedOps (v : String → Bool)
    (catalog : List BackupSchedule) :
    ∀ (ops : List SchedOp) (jobs : SchedulerJobs),
      (schedKeys jobs).Nodup →
      (schedKeys (applySchedOps v catalog jobs ops)).Nodup := by
  intro ops
  induction ops with
  | nil => exact fun jobs h => h
  | cons op rest ih =>
    intro jobs h
    exact ih (applySchedOp v catalog jobs op)
      (schedKeys_nodup_applySchedOp v catalog jobs op h)

/-- C9: after any sequence of install, uninstall, reload and initialize-all
operations starting from an empty timer map, the installed timers carry
pairwise distinct schedule ids (at most one active timer per id); after two
installs for the same schedule id with valid cron expressions the sole
entry for that id is the second schedule, carrying its cron expression; and
an install whose cron expression fails validation installs nothing. -/
theorem c9_scheduler_single_timer (validate : String → Bool)
    (catalog : List BackupSchedule) (ops : List SchedOp)
    (jobs : SchedulerJobs) (s1 s2 : BackupSchedule)
    (_hid : s1.Id = s2.Id)
    (_hv1 : validate s1.CronExpression = true)
    (hv2 : validate s2.CronExpression = true) :
    (schedKeys (applySchedOps validate catalog [] ops)).Nodup ∧
    (scheduleBackupJob validate (scheduleBackupJob validate jobs s1) s2).filter
      (fun p => p.1 == s2.Id) = [(s2.Id, s2)] ∧
    ∀ s js, validate s.CronExpression = false →
      scheduleBackupJob validate js s = js := by
  refine ⟨schedKeys_nodup_applySchedOps validate catalog ops [] List.nodup_nil,
    scheduleBackupJob_filter_self validate _ s2 hv2, ?_⟩
  intro s js hv
  unfold scheduleBackupJob
  rw [hv]
  simp

/-- Witness for C9 at the two concrete installs of schedule `"s1"`. -/
theorem c9_scheduler_single_timer_witness :
    (demoSchedule1.Id = demoSchedule2.Id ∧
      demoValidate demoSchedule1.CronExpression = true ∧
      demoValidate demoSchedule2.CronExpression = true) ∧
    ((schedKeys (applySchedOps demoValidate []
        [] [SchedOp.install demoSchedule1, SchedOp.install demoSchedule2])).Nodup ∧
    (scheduleBackupJob demoValidate
        (scheduleBackupJob demoValidate [] demoSchedule1) demoSchedule2).filter
      (fun p => p.1 == demoSchedule2.Id) = [(demoSchedule2.Id, demoSchedule2)] ∧
    ∀ s js, demoValidate s.CronExpression = false →
      scheduleBackupJob demoValidate js s = js) :=
  ⟨⟨by decide, by decide, by decide⟩,
    c9_scheduler_single_timer demoValidate []
      [SchedOp.install demoSchedule1, SchedOp.install demoSchedule2] []
      demoSchedule1 demoSchedule2 (by decide) (by decide) (by decide)⟩

/-! ## Backup executor terminal behaviour -/

theorem adapterSettle_nonzero_exit (gzip : List Nat → List Nat)
    (sha256hex : List Nat → String) (pn fp : String) (isErr : List Char → Bool)
    (run : DumpRun) (path : String) (c : Int)
    (hlaunch : run.launchFails = false) (hexit : run.exitCode = some c)
    (hc : c ≠ 0) :
    adapterSettle gzip sha256hex pn fp isErr run path =
      Except.error ((pn ++ " exited with code ").toList ++ (toString c).toList
        ++ (": ").toList ++ (scanStderr isErr run.stderrLines).2) := by
  simp [adapterSettle, hlaunch, hexit, hc]

theorem exit_message_ne_nil (pn : String) (hpn : pn.toList ≠ []) (cs rest : List Char) :
    (pn ++ " exited with code ").toList ++ cs ++ (": ").toList ++ rest ≠ [] := by
  intro hnil
  rcases List.append_eq_nil.mp hnil with ⟨h1, -⟩
  rcases List.append_eq_nil.mp h1 with ⟨h2, -⟩
  rcases List.append_eq_nil.mp h2 with ⟨h3, -⟩
  have : pn.toList ++ (" exited with code ").toList = [] := by
    simpa [String.toList] using congrArg String.toList
      (congrArg id (show pn ++ " exited with code " = "" from by
        apply String.ext
        simpa [String.toList] using h3))
  exact hpn (List.append_eq_nil.mp this).1

/-- C5: when the dump sub-process of a backup exits with a nonzero code —
whatever its stderr contained — the executor's catch boundary turns the
adapter rejection into an `ok` return whose result reports failure, and the
terminal record has status `failed` (hence is not left `running`) with a
non-empty error message. -/
theorem c5_nonzero_exit_fails (gzip : List Nat → List Nat)
    (sha256hex : List Nat → String) (env : BackupEnv)
    (input : BackupExecutionInput) (c : Int) (d : DatabaseConfig)
    (hcreate : env.createFails = false)
    (hdb : env.dbConfig = some d)
    (htype : d.DbType = "postgresql" ∨ d.DbType = "mysql")
    (hlaunch : env.dump.launchFails = false)
    (hexit : env.dump.exitCode = some c) (hc : c ≠ 0) :
    ∃ res rec, executeBackup gzip sha256hex env input = Except.ok (res, rec) ∧
      res.success = false ∧ rec.Status = RecStatus.failed ∧
      rec.Status ≠ RecStatus.running ∧
      ∃ msg, rec.ErrorMessage = some msg ∧ msg ≠ [] := by
  have build : ∀ (pn isErr) (fp : String), pn.toList ≠ [] →
      (if d.DbType = "postgresql" then
        executePostgresBackup gzip sha256hex env.dump
          (generateBackupFileName d.Name input.BackupType env.timestamp env.shortId
            (if d.DbType = "postgresql" then "dump" else "sql"))
      else if d.DbType = "mysql" then
        executeMySQLBackup gzip sha256hex env.dump
          (generateBackupFileName d.Name input.BackupType env.timestamp env.shortId
            (if d.DbType = "postgresql" then "dump" else "sql"))
      else
        Except.error (("Unsupported database type: " ++ d.DbType).toList)) =
        Except.error ((pn ++ " exited with code ").toList ++ (toString c).toList
          ++ (": ").toList ++ (scanStderr isErr env.dump.stderrLines).2) →
      ∃ res rec, executeBackup gzip sha256hex env input = Except.ok (res, rec) ∧
        res.success = false ∧ rec.Status = RecStatus.failed ∧
        rec.Status ≠ RecStatus.running ∧
        ∃ msg, rec.ErrorMessage = some msg ∧ msg ≠ [] := by
    intro pn isErr fp hpn hdisp
    have htb : backupTryBody gzip sha256hex env input =
        Except.error ((pn ++ " exited with code ").toList ++ (toString c).toList
          ++ (": ").toList ++ (scanStderr isErr env.dump.stderrLines).2) := by
      simp only [backupTryBody, hdb]
      rw [hdisp]
    refine ⟨⟨false, some ((pn ++ " exited with code ").toList ++ (toString c).toList
        ++ (": ").toList ++ (scanStderr isErr env.dump.stderrLines).2)⟩,
      { runningBackupRecord with
          Status := RecStatus.failed
          ErrorMessage := some ((pn ++ " exited with code ").toList
            ++ (toString c).toList ++ (": ").toList
            ++ (scanStderr isErr env.dump.stderrLines).2)
          CompletedAt := some env.endMs },
      ?_, rfl, rfl, by simp, _, rfl, exit_message_ne_nil pn hpn _ _⟩
    simp [executeBackup, hcreate, htb]
  rcases htype with h | h
  · refine build "pg_dump" postgresLineIsError "PostgreSQL" (by decide) ?_
    rw [if_pos h]
    exact adapterSettle_nonzero_exit gzip sha256hex _ _ _ _ _ c hlaunch hexit hc
  · have hne : ¬(d.DbType = "postgresql") := by rw [h]; decide
    refine build "mysqldump" mysqlLineIsError "MySQL" (by decide) ?_
    rw [if_neg hne, if_pos h]
    exact adapterSettle_nonzero_exit gzip sha256hex _ _ _ _ _ c hlaunch hexit hc

/-- Witness for C5 at a concrete mysql dump exiting with code 2 and no
error-matching stderr line. -/
theorem c5_nonzero_exit_fails_witness :
    (demoFailEnv.createFails = false ∧
      demoFailEnv.dbConfig = some ⟨"mydb", "mysql"⟩ ∧
      ((DatabaseConfig.mk "mydb" "mysql").DbType = "postgresql" ∨
        (DatabaseConfig.mk "mydb" "mysql").DbType = "mysql") ∧
      demoFailEnv.dump.launchFails = false ∧
      demoFailEnv.dump.exitCode = some 2 ∧ (2 : Int) ≠ 0) ∧
    (∃ res rec, executeBackup demoGzip demoSha demoFailEnv demoInput =
        Except.ok (res, rec) ∧
      res.success = false ∧ rec.Status = RecStatus.failed ∧
      rec.Status ≠ RecStatus.running ∧
      ∃ msg, rec.ErrorMessage = some msg ∧ msg ≠ []) :=
  ⟨⟨rfl, rfl, Or.inr rfl, rfl, rfl, by decide⟩,
    c5_nonzero_exit_fails demoGzip demoSha demoFailEnv demoInput 2
      ⟨"mydb", "mysql"⟩ rfl rfl (Or.inr rfl) rfl rfl (by decide)⟩

theorem adapterSettle_ok (gzip : List Nat → List Nat)
    (sha256hex : List Nat → String) (pn fp : String) (isErr : List Char → Bool)
    (run : DumpRun) (path : String) (md : BackupMetadata)
    (h : adapterSettle gzip sha256hex pn fp isErr run path = Except.ok md) :
    md.checksum = sha256hex run.stdoutBytes ∧
      md.fileBytes = gzip run.stdoutBytes ∧
      md.fileSizeBytes = (gzip run.stdoutBytes).length := by
  unfold adapterSettle at h
  split at h
  · exact absurd h (by simp)
  · split at h
    · split at h
      · dsimp only at h
        split at h
        · exact absurd h (by simp)
        · obtain rfl := (Except.ok.injEq _ _).mp h
          exact ⟨rfl, rfl, rfl⟩
      · exact absurd h (by simp)
    · dsimp only at h
      split at h
      · exact absurd h (by simp)
      · obtain rfl := (Except.ok.injEq _ _).mp h
        exact ⟨rfl, rfl, rfl⟩

/-- C2: a backup whose executor call reports success persists a terminal
record with status `completed`, a non-null file size, and a checksum that
digests the uncompressed dump stdout bytes — which, because the hash
accumulator taps the stream before the compressor, equals the digest
recomputed from the decompressed content of the written output file. -/
theorem c2_success_checksum (gzip gunzip : List Nat → List Nat)
    (sha256hex : List Nat → String) (env : BackupEnv)
    (input : BackupExecutionInput) (res : BackupResult) (rec : ExecRecord)
    (hrt : ∀ bs, gunzip (gzip bs) = bs)
    (hok : executeBackup gzip sha256hex env input = Except.ok (res, rec))
    (hsucc : res.success = true) :
    rec.Status = RecStatus.completed ∧ rec.FileSizeBytes.isSome = true ∧
      rec.Checksum = some (sha256hex env.dump.stdoutBytes) ∧
      ∃ fb, rec.LocalFileBytes = some fb ∧
        sha256hex (gunzip fb) = sha256hex env.dump.stdoutBytes := by
  unfold executeBackup at hok
  split at hok
  · exact absurd hok (by simp)
  · split at hok
    case h_2 msg heq =>
      obtain ⟨hres, hrec⟩ := Prod.mk.injEq .. ▸ (Except.ok.injEq _ _).mp hok
      rw [← hres] at hsucc
      exact absurd hsucc (by simp)
    case h_1 out heq =>
      obtain rfl := (Except.ok.injEq _ _).mp hok
      unfold backupTryBody at heq
      split at heq
      · exact absurd heq (by simp)
      · dsimp only at heq
        split at heq
        · exact absurd heq (by simp)
        · rename_i metadata hdisp
          obtain ⟨hres, hrec⟩ := Prod.mk.injEq .. ▸ (Except.ok.injEq _ _).mp heq
          have hmd : metadata.checksum = sha256hex env.dump.stdoutBytes ∧
              metadata.fileBytes = gzip env.dump.stdoutBytes ∧
              metadata.fileSizeBytes = (gzip env.dump.stdoutBytes).length := by
            split at hdisp
            · exact adapterSettle_ok _ _ _ _ _ _ _ _ hdisp
            · split at hdisp
              · exact adapterSettle_ok _ _ _ _ _ _ _ _ hdisp
              · exact absurd hdisp (by simp)
          rw [← hrec]
          refine ⟨rfl, rfl, by rw [hmd.1], metadata.fileBytes, rfl, ?_⟩
          rw [hmd.2.1, hrt]

/-- Witness for C2 at a concrete successful mysql backup. -/
theorem c2_success_checksum_witness :
    ((∀ bs, demoGunzip (demoGzip bs) = bs) ∧
      executeBackup demoGzip demoSha demoOkEnv demoInput =
        Except.ok (⟨true, none⟩,
          ⟨RecStatus.completed, some "mydb_manual_2026-01-01_abcd1234.sql.gz",
            some 4, some [0, 1, 2, 3], false, some 3000, some 2,
            some "[1, 2, 3]", none⟩) ∧
      (BackupResult.mk true none).success = true) ∧
    ((ExecRecord.mk RecStatus.completed
        (some "mydb_manual_2026-01-01_abcd1234.sql.gz") (some 4)
        (some [0, 1, 2, 3]) false (some 3000) (some 2)
        (some "[1, 2, 3]") none).Status = RecStatus.completed ∧
      (ExecRecord.mk RecStatus.completed
        (some "mydb_manual_2026-01-01_abcd1234.sql.gz") (some 4)
        (some [0, 1, 2, 3]) false (some 3000) (some 2)
        (some "[1, 2, 3]") none).FileSizeBytes.isSome = true ∧
      (ExecRecord.mk RecStatus.completed
        (some "mydb_manual_2026-01-01_abcd1234.sql.gz") (some 4)
        (some [0, 1, 2, 3]) false (some 3000) (some 2)
        (some "[1, 2, 3]") none).Checksum =
          some (demoSha demoOkEnv.dump.stdoutBytes) ∧
      ∃ fb, (ExecRecord.mk RecStatus.completed
        (some "mydb_manual_2026-01-01_abcd1234.sql.gz") (some 4)
        (some [0, 1, 2, 3]) false (some 3000) (some 2)
        (some "[1, 2, 3]") none).LocalFileBytes = some fb ∧
        demoSha (demoGunzip fb) = demoSha demoOkEnv.dump.stdoutBytes) :=
  ⟨⟨fun _ => rfl, rfl, rfl⟩,
    c2_success_checksum demoGzip demoGunzip demoSha demoOkEnv demoInput
      ⟨true, none⟩
      ⟨RecStatus.completed, some "mydb_manual_2026-01-01_abcd1234.sql.gz",
        some 4, some [0, 1, 2, 3], false, some 3000, some 2,
        some "[1, 2, 3]", none⟩
      (fun _ => rfl) rfl rfl⟩

/-! ## Bucket map lemmas -/

theorem lookupRep_upsertRep (m : List (Nat × Backup)) (k : Nat) (b : Backup) (q : Nat) :
    lookupRep (upsertRep m k b) q =
      if q = k then some (pickNewer (lookupRep m k) b) else lookupRep m q := by
  induction m with
  | nil =>
    by_cases hq : q = k
    · subst hq
      simp [upsertRep, lookupRep, pickNewer]
    · have hq2 : ¬ k = q := fun h => hq h.symm
      simp [upsertRep, lookupRep, hq, hq2]
  | cons p rest ih =>
    obtain ⟨k1, b1⟩ := p
    by_cases hk : k1 = k
    · subst hk
      by_cases hq : q = k1
      · subst hq
        by_cases hb : b1.StartedAt < b.StartedAt
        · simp [upsertRep, lookupRep, pickNewer, hb]
        · simp [upsertRep, lookupRep, pickNewer, hb]
      · have hq2 : ¬ k1 = q := fun h => hq h.symm
        by_cases hb : b1.StartedAt < b.StartedAt
        · simp [upsertRep, lookupRep, hq, hq2, hb]
        · simp [upsertRep, lookupRep, hq, hq2, hb]
    · by_cases hq : q = k
      · subst hq
        have hk1q : ¬ k1 = q := hk
        simp [upsertRep, lookupRep, hk, hk1q, ih]
      · by_cases h1 : k1 = q
        · subst h1
          simp [upsertRep, lookupRep, hk, hq, ih]
        · simp [upsertRep, lookupRep, hk, hq, h1, ih]

theorem lookupRep_foldl_upsert (f : Nat → Nat) :
    ∀ (l : List Backup) (m : List (Nat × Backup)) (q : Nat),
      lookupRep (l.foldl (fun m b => upsertRep m (f b.StartedAt) b) m) q =
        (l.filter (fun b => f b.StartedAt == q)).foldl
          (fun o b => some (pickNewer o b)) (lookupRep m q) := by
  intro l
  induction l with
  | nil => intro m q; rfl
  | cons b rest ih =>
    intro m q
    by_cases hb : f b.StartedAt = q
    · have hfil : (b :: rest).filter (fun b => f b.StartedAt == q) =
          b :: rest.filter (fun b => f b.StartedAt == q) := by
        simp [List.filter_cons, hb]
      rw [List.foldl_cons, ih, hfil, List.foldl_cons, lookupRep_upsertRep,
        if_pos hb.symm, hb]
    · have hfil : (b :: rest).filter (fun b => f b.StartedAt == q) =
          rest.filter (fun b => f b.StartedAt == q) := by
        simp [List.filter_cons, hb]
      rw [List.foldl_cons, ih, hfil, lookupRep_upsertRep,
        if_neg (fun h => hb h.symm)]

theorem lookupRep_bucketReps (f : Nat → Nat) (l : List Backup) (q : Nat) :
    lookupRep (bucketReps f l) q = bucketBest f q l := by
  simpa [bucketReps, bucketBest] using lookupRep_foldl_upsert f l [] q

theorem pickNewer_some_cases (b0 c : Backup) :
    pickNewer (some b0) c = b0 ∨ pickNewer (some b0) c = c := by
  unfold pickNewer
  by_cases h : b0.StartedAt < c.StartedAt
  · exact Or.inr (by simp [h])
  · exact Or.inl (by simp [h])

theorem pickNewer_ge_left (b0 c : Backup) :
    b0.StartedAt ≤ (pickNewer (some b0) c).StartedAt := by
  unfold pickNewer
  by_cases h : b0.StartedAt < c.StartedAt
  · simpa [h] using Nat.le_of_lt h
  · simp [h]

theorem pickNewer_ge_right (b0 c : Backup) :
    c.StartedAt ≤ (pickNewer (some b0) c).StartedAt := by
  unfold pickNewer
  by_cases h : b0.StartedAt < c.StartedAt
  · simp [h]
  · simpa [h] using Nat.le_of_not_lt h

theorem foldPick_some :
    ∀ (rl : List Backup) (b0 : Backup),
      ∃ x, rl.foldl (fun o b => some (pickNewer o b)) (some b0) = some x := by
  intro rl
  induction rl with
  | nil => exact fun b0 => ⟨b0, rfl⟩
  | cons c rest ih => exact fun b0 => ih (pickNewer (some b0) c)

theorem foldPick_mem :
    ∀ (rl : List Backup) (b0 x : Backup),
      rl.foldl (fun o b => some (pickNewer o b)) (some b0) = some x →
      x = b0 ∨ x ∈ rl := by
  intro rl
  induction rl with
  | nil =>
    intro b0 x h
    exact Or.inl (Option.some.injEq .. ▸ h.symm ▸ rfl)
  | cons c rest ih =>
    intro b0 x h
    rcases ih (pickNewer (some b0) c) x h with h1 | h1
    · rcases pickNewer_some_cases b0 c with h2 | h2
      · exact Or.inl (h1.trans h2)
      · exact Or.inr (by rw [h1, h2]; exact List.mem_cons_self c rest)
    · exact Or.inr (List.mem_cons_of_mem c h1)

theorem foldPick_ge :
    ∀ (rl : List Backup) (b0 x : Backup),
      rl.foldl (fun o b => some (pickNewer o b)) (some b0) = some x →
      b0.StartedAt ≤ x.StartedAt ∧ ∀ c ∈ rl, c.StartedAt ≤ x.StartedAt := by
  intro rl
  induction rl with
  | nil =>
    intro b0 x h
    obtain rfl : b0 = x := Option.some.injEq .. ▸ h
    exact ⟨Nat.le_refl _, by simp⟩
  | cons c rest ih =>
    intro b0 x h
    obtain ⟨h1, h2⟩ := ih (pickNewer (some b0) c) x h
    refine ⟨Nat.le_trans (pickNewer_ge_left b0 c) h1, ?_⟩
    intro d hd
    rcases List.mem_cons.mp hd with rfl | hd
    · exact Nat.le_trans (pickNewer_ge_right b0 d) h1
    · exact h2 d hd

theorem eq_of_startedAt_eq {l : List Backup}
    (hdist : l.Pairwise (fun a c => a.StartedAt ≠ c.StartedAt))
    {x b : Backup} (hx : x ∈ l) (hb : b ∈ l)
    (heq : x.StartedAt = b.StartedAt) : x = b := by
  by_contra hne
  exact hdist.forall (fun a c h => h.symm) hx hb hne heq

theorem bucketBest_eq_none_iff (f : Nat → Nat) (q : Nat) (l : List Backup) :
    bucketBest f q l = none ↔ l.filter (fun b => f b.StartedAt == q) = [] := by
  unfold bucketBest
  cases hfil : l.filter (fun b => f b.StartedAt == q) with
  | nil => simp
  | cons c rest =>
    simp only [List.foldl_cons]
    obtain ⟨x, hx⟩ := foldPick_some rest (pickNewer none c)
    simp [hx]

theorem bucketBest_spec (f : Nat → Nat) (q : Nat) (l : List Backup) (x : Backup)
    (h : bucketBest f q l = some x) :
    x ∈ l ∧ f x.StartedAt = q ∧
      ∀ c ∈ l, f c.StartedAt = q → c.StartedAt ≤ x.StartedAt := by
  unfold bucketBest at h
  cases hfil : l.filter (fun b => f b.StartedAt == q) with
  | nil => rw [hfil] at h; exact absurd h (by simp)
  | cons c rest =>
    rw [hfil] at h
    simp only [List.foldl_cons] at h
    have hpick : pickNewer none c = c := rfl
    rw [hpick] at h
    have hxmem : x ∈ c :: rest := by
      rcases foldPick_mem rest c x h with h1 | h1
      · exact h1 ▸ List.mem_cons_self c rest
      · exact List.mem_cons_of_mem c h1
    have hxfil : x ∈ l.filter (fun b => f b.StartedAt == q) := hfil ▸ hxmem
    have hxl : x ∈ l ∧ f x.StartedAt = q := by
      have := List.mem_filter.mp hxfil
      exact ⟨this.1, by simpa using this.2⟩
    obtain ⟨hge1, hge2⟩ := foldPick_ge rest c x h
    refine ⟨hxl.1, hxl.2, ?_⟩
    intro d hd hdq
    have hdfil : d ∈ l.filter (fun b => f b.StartedAt == q) :=
      List.mem_filter.mpr ⟨hd, by simpa using hdq⟩
    rw [hfil] at hdfil
    rcases List.mem_cons.mp hdfil with rfl | hdr
    · exact hge1
    · exact hge2 d hdr

theorem bucketBest_eq_some (f : Nat → Nat) (q : Nat) (l : List Backup) (b : Backup)
    (hdist : l.Pairwise (fun a c => a.StartedAt ≠ c.StartedAt))
    (hmem : b ∈ l) (hq : f b.StartedAt = q)
    (hmax : ∀ c ∈ l, f c.StartedAt = q → c.StartedAt ≤ b.StartedAt) :
    bucketBest f q l = some b := by
  have hbfil : b ∈ l.filter (fun c => f c.StartedAt == q) :=
    List.mem_filter.mpr ⟨hmem, by simpa using hq⟩
  have hnonempty : l.filter (fun c => f c.StartedAt == q) ≠ [] :=
    List.ne_nil_of_mem hbfil
  cases hbb : bucketBest f q l with
  | none => exact absurd ((bucketBest_eq_none_iff f q l).mp hbb) hnonempty
  | some x =>
    obtain ⟨hxl, hxq, hxmax⟩ := bucketBest_spec f q l x hbb
    have h1 : x.StartedAt ≤ b.StartedAt := hmax x hxl hxq
    have h2 : b.StartedAt ≤ x.StartedAt := hxmax b hmem hq
    rw [eq_of_startedAt_eq hdist hxl hmem (Nat.le_antisymm h1 h2)]

theorem mem_keys_upsertRep (m : List (Nat × Backup)) (k : Nat) (b : Backup) (q : Nat) :
    q ∈ (upsertRep m k b).map Prod.fst ↔ q ∈ m.map Prod.fst ∨ q = k := by
  induction m with
  | nil => simp [upsertRep]
  | cons p rest ih =>
    obtain ⟨k1, b1⟩ := p
    by_cases hk : k1 = k
    · by_cases hb : b1.StartedAt < b.StartedAt
      · simp only [upsertRep, if_pos hk, if_pos hb, List.map_cons, List.mem_cons]
        subst hk
        tauto
      · simp only [upsertRep, if_pos hk, if_neg hb, List.map_cons, List.mem_cons]
        subst hk
        tauto
    · simp only [upsertRep, if_neg hk, List.map_cons, List.mem_cons, ih]
      tauto

theorem nodup_keys_upsertRep (m : List (Nat × Backup)) (k : Nat) (b : Backup)
    (h : (m.map Prod.fst).Nodup) : ((upsertRep m k b).map Prod.fst).Nodup := by
  induction m with
  | nil => simp [upsertRep]
  | cons p rest ih =>
    obtain ⟨k1, b1⟩ := p
    simp only [List.map_cons, List.nodup_cons] at h
    by_cases hk : k1 = k
    · by_cases hb : b1.StartedAt < b.StartedAt
      · simp only [upsertRep, if_pos hk, if_pos hb, List.map_cons, List.nodup_cons]
        exact h
      · simp only [upsertRep, if_pos hk, if_neg hb, List.map_cons, List.nodup_cons]
        exact h
    · simp only [upsertRep, if_neg hk, List.map_cons, List.nodup_cons]
      refine ⟨?_, ih h.2⟩
      intro hmem
      rcases (mem_keys_upsertRep rest k b k1).mp hmem with h1 | h1
      · exact h.1 h1
      · exact hk h1

theorem nodup_keys_bucketReps (f : Nat → Nat) (l : List Backup) :
    ((bucketReps f l).map Prod.fst).Nodup := by
  have aux : ∀ (l2 : List Backup) (m : List (Nat × Backup)),
      (m.map Prod.fst).Nodup →
      (((l2.foldl (fun m b => upsertRep m (f b.StartedAt) b) m)).map Prod.fst).Nodup := by
    intro l2
    induction l2 with
    | nil => exact fun m h => h
    | cons b rest ih =>
      intro m h
      exact ih _ (nodup_keys_upsertRep m (f b.StartedAt) b h)
  exact aux l [] (by simp)

theorem lookupRep_eq_some_of_mem :
    ∀ (m : List (Nat × Backup)) (k : Nat) (b : Backup),
      (m.map Prod.fst).Nodup → (k, b) ∈ m → lookupRep m k = some b := by
  intro m
  induction m with
  | nil => intro k b _ h; simp at h
  | cons p rest ih =>
    intro k b hnd hmem
    obtain ⟨k1, b1⟩ := p
    simp only [List.map_cons, List.nodup_cons] at hnd
    rcases List.mem_cons.mp hmem with h | h
    · cases h
      simp [lookupRep]
    · have hk : k1 ≠ k := by
        intro hk
        subst hk
        exact hnd.1 (List.mem_map_of_mem Prod.fst h)
      simp only [lookupRep, if_neg hk]
      exact ih k b hnd.2 h

theorem mem_of_lookupRep_eq_some :
    ∀ (m : List (Nat × Backup)) (k : Nat) (b : Backup),
      lookupRep m k = some b → (k, b) ∈ m := by
  intro m
  induction m with
  | nil => intro k b h; simp [lookupRep] at h
  | cons p rest ih =>
    intro k b h
    obtain ⟨k1, b1⟩ := p
    by_cases hk : k1 = k
    · simp only [lookupRep, if_pos hk, Option.some.injEq] at h
      subst hk
      rw [← h]
      exact List.mem_cons_self _ _
    · simp only [lookupRep, if_neg hk] at h
      exact List.mem_cons_of_mem _ (ih k b h)

theorem mem_values_bucketReps (f : Nat → Nat) (l : List Backup) (b : Backup)
    (hdist : l.Pairwise (fun a c => a.StartedAt ≠ c.StartedAt)) :
    b ∈ (bucketReps f l).map Prod.snd ↔
      (b ∈ l ∧ ∀ c ∈ l, f c.StartedAt = f b.StartedAt → c.StartedAt ≤ b.StartedAt) := by
  constructor
  · intro h
    obtain ⟨⟨k, b2⟩, hmem, hb2⟩ := List.mem_map.mp h
    have hb2e : b = b2 := hb2.symm
    subst hb2e
    have hlook : lookupRep (bucketReps f l) k = some b :=
      lookupRep_eq_some_of_mem _ k b (nodup_keys_bucketReps f l) hmem
    rw [lookupRep_bucketReps] at hlook
    obtain ⟨h1, h2, h3⟩ := bucketBest_spec f k l b hlook
    exact ⟨h1, fun c hc hcq => h3 c hc (h2 ▸ hcq)⟩
  · rintro ⟨hmem, hmax⟩
    have hbb : bucketBest f (f b.StartedAt) l = some b :=
      bucketBest_eq_some f _ l b hdist hmem rfl hmax
    rw [← lookupRep_bucketReps] at hbb
    exact List.mem_map.mpr ⟨(f b.StartedAt, b),
      mem_of_lookupRep_eq_some _ _ _ hbb, rfl⟩

theorem key_of_mem_bucketReps (f : Nat → Nat) (l : List Backup) (k : Nat) (b : Backup)
    (h : (k, b) ∈ bucketReps f l) : k = f b.StartedAt := by
  have hlook : lookupRep (bucketReps f l) k = some b :=
    lookupRep_eq_some_of_mem _ k b (nodup_keys_bucketReps f l) h
  rw [lookupRep_bucketReps] at hlook
  exact (bucketBest_spec f k l b hlook).2.1.symm

theorem values_pairwise_keys (f : Nat → Nat) (l : List Backup) :
    ((bucketReps f l).map Prod.snd).Pairwise
      (fun a c => f a.StartedAt ≠ f c.StartedAt) := by
  have hkeys : (bucketReps f l).Pairwise (fun p q => p.1 ≠ q.1) := by
    have := nodup_keys_bucketReps f l
    rwa [List.Nodup, List.pairwise_map] at this
  have hmem : (bucketReps f l).Pairwise
      (fun p q => p ∈ bucketReps f l ∧ q ∈ bucketReps f l ∧ p.1 ≠ q.1) :=
    List.Pairwise.and_mem.mp hkeys
  rw [List.pairwise_map]
  refine hmem.imp ?_
  rintro ⟨kp, bp⟩ ⟨kq, bq⟩ ⟨hp, hq, hne⟩
  have h1 := key_of_mem_bucketReps f l kp bp hp
  have h2 := key_of_mem_bucketReps f l kq bq hq
  simpa [h1, h2] using hne

theorem values_pairwise_startedAt (f : Nat → Nat) (l : List Backup) :
    ((bucketReps f l).map Prod.snd).Pairwise
      (fun a c => a.StartedAt ≠ c.StartedAt) :=
  (values_pairwise_keys f l).imp (fun h heq => h (congrArg f heq))

theorem values_subset_bucketReps (f : Nat → Nat) :
    ∀ (l : List Backup) (p : Nat × Backup),
      p ∈ bucketReps f l → p.2 ∈ l := by
  have aux : ∀ (m : List (Nat × Backup)) (k : Nat) (b : Backup) (p : Nat × Backup),
      p ∈ upsertRep m k b → p ∈ m ∨ p.2 = b := by
    intro m
    induction m with
    | nil =>
      intro k b p h
      simp only [upsertRep, List.mem_singleton] at h
      exact Or.inr (by rw [h])
    | cons q rest ih =>
      intro k b p h
      obtain ⟨k1, b1⟩ := q
      by_cases hk : k1 = k
      · by_cases hb : b1.StartedAt < b.StartedAt
        · rw [upsertRep, if_pos hk, if_pos hb] at h
          rcases List.mem_cons.mp h with rfl | h
          · exact Or.inr rfl
          · exact Or.inl (List.mem_cons_of_mem _ h)
        · rw [upsertRep, if_pos hk, if_neg hb] at h
          exact Or.inl h
      · rw [upsertRep, if_neg hk] at h
        rcases List.mem_cons.mp h with rfl | h
        · exact Or.inl (List.mem_cons_self _ _)
        · rcases ih k b p h with h2 | h2
          · exact Or.inl (List.mem_cons_of_mem _ h2)
          · exact Or.inr h2
  have aux2 : ∀ (l2 : List Backup) (m : List (Nat × Backup)) (p : Nat × Backup),
      p ∈ l2.foldl (fun m b => upsertRep m (f b.StartedAt) b) m →
      p ∈ m ∨ p.2 ∈ l2 := by
    intro l2
    induction l2 with
    | nil => exact fun m p h => Or.inl h
    | cons b rest ih =>
      intro m p h
      rcases ih _ p h with h2 | h2
      · rcases aux m (f b.StartedAt) b p h2 with h3 | h3
        · exact Or.inl h3
        · exact Or.inr (by rw [h3]; exact List.mem_cons_self _ _)
      · exact Or.inr (List.mem_cons_of_mem _ h2)
  intro l p h
  rcases aux2 l [] p h with h2 | h2
  · simp at h2
  · exact h2

theorem mem_take_iff_strictDesc :
    ∀ (s : List Backup) (K : Nat) (b : Backup),
      s.Pairwise (fun a c => c.StartedAt < a.StartedAt) →
      (b ∈ s.take K ↔
        b ∈ s ∧ (s.filter (fun c => b.StartedAt < c.StartedAt)).length < K) := by
  intro s
  induction s with
  | nil => intro K b _; simp
  | cons x rest ih =>
    intro K b hpw
    obtain ⟨hx, hrest⟩ := List.pairwise_cons.mp hpw
    cases K with
    | zero => simp
    | succ K =>
      by_cases hbx : b = x
      · subst hbx
        have hfilter : (b :: rest).filter
            (fun c => b.StartedAt < c.StartedAt) = [] := by
          rw [List.filter_eq_nil_iff]
          intro c hc
          simp only [decide_eq_true_eq]
          rcases List.mem_cons.mp hc with rfl | hc
          · exact Nat.lt_irrefl _
          · exact Nat.not_lt_of_lt (hx c hc)
        simp [hfilter]
      · have htake : (x :: rest).take (K + 1) = x :: rest.take K := rfl
        rw [htake]
        constructor
        · intro hmem
          have hb : b ∈ rest.take K := by
            rcases List.mem_cons.mp hmem with h | h
            · exact absurd h hbx
            · exact h
          obtain ⟨hbr, hlen⟩ := (ih K b hrest).mp hb
          have hblt : b.StartedAt < x.StartedAt := hx b hbr
          have hfil : (x :: rest).filter (fun c => b.StartedAt < c.StartedAt) =
              x :: rest.filter (fun c => b.StartedAt < c.StartedAt) := by
            simp [List.filter_cons, hblt]
          rw [hfil]
          exact ⟨List.mem_cons_of_mem _ hbr, Nat.succ_lt_succ hlen⟩
        · rintro ⟨hmem, hlen⟩
          have hbr : b ∈ rest := by
            rcases List.mem_cons.mp hmem with h | h
            · exact absurd h hbx
            · exact h
          have hblt : b.StartedAt < x.StartedAt := hx b hbr
          have hfil : (x :: rest).filter (fun c => b.StartedAt < c.StartedAt) =
              x :: rest.filter (fun c => b.StartedAt < c.StartedAt) := by
            simp [List.filter_cons, hblt]
          rw [hfil, List.length_cons] at hlen
          exact List.mem_cons_of_mem _
            ((ih K b hrest).mpr ⟨hbr, Nat.lt_of_succ_lt_succ hlen⟩)

theorem sortDesc_perm (l : List Backup) : List.Perm (sortDesc l) l :=
  List.perm_insertionSort startedGE l

theorem sortDesc_sorted (l : List Backup) :
    (sortDesc l).Pairwise startedGE :=
  List.sorted_insertionSort startedGE l

theorem pairwise_startedNe_of_perm {l1 l2 : List Backup} (hp : List.Perm l1 l2)
    (h : l1.Pairwise (fun a c => a.StartedAt ≠ c.StartedAt)) :
    l2.Pairwise (fun a c => a.StartedAt ≠ c.StartedAt) :=
  (hp.pairwise_iff (fun h2 => h2.symm)).mp h

theorem sortDesc_strict (l : List Backup)
    (hdist : l.Pairwise (fun a c => a.StartedAt ≠ c.StartedAt)) :
    (sortDesc l).Pairwise (fun a c => c.StartedAt < a.StartedAt) := by
  have h1 : (sortDesc l).Pairwise startedGE := sortDesc_sorted l
  have h2 : (sortDesc l).Pairwise (fun a c => a.StartedAt ≠ c.StartedAt) :=
    pairwise_startedNe_of_perm (sortDesc_perm l).symm hdist
  refine (h1.and h2).imp ?_
  rintro a c ⟨hge, hne⟩
  exact Nat.lt_of_le_of_ne hge (fun he => hne he.symm)

theorem values_filter_length_eq (f : Nat → Nat) (l : List Backup) (b : Backup)
    (hmono : Monotone f)
    (hdist : l.Pairwise (fun a c => a.StartedAt ≠ c.StartedAt))
    (hbv : b ∈ (bucketReps f l).map Prod.snd) :
    (((bucketReps f l).map Prod.snd).filter
        (fun c => b.StartedAt < c.StartedAt)).length =
      (((l.map (fun c => f c.StartedAt)).toFinset).filter
        (fun q => f b.StartedAt < q)).card := by
  have hpkeys : ((bucketReps f l).map Prod.snd).Pairwise
      (fun a c => f a.StartedAt ≠ f c.StartedAt) := values_pairwise_keys f l
  have hglpw : (((bucketReps f l).map Prod.snd).filter
      (fun c => b.StartedAt < c.StartedAt)).Pairwise
      (fun a c => f a.StartedAt ≠ f c.StartedAt) :=
    hpkeys.sublist (List.filter_sublist _)
  have hnd : ((((bucketReps f l).map Prod.snd).filter
      (fun c => b.StartedAt < c.StartedAt)).map
      (fun c => f c.StartedAt)).Nodup := by
    rw [List.Nodup, List.pairwise_map]
    exact hglpw
  have hset : ((((bucketReps f l).map Prod.snd).filter
      (fun c => b.StartedAt < c.StartedAt)).map
        (fun c => f c.StartedAt)).toFinset =
      ((l.map (fun c => f c.StartedAt)).toFinset).filter
        (fun q => f b.StartedAt < q) := by
    ext q
    simp only [List.mem_toFinset, List.mem_map, Finset.mem_filter]
    constructor
    · rintro ⟨c, hcgl, rfl⟩
      obtain ⟨hcv, hlt⟩ := List.mem_filter.mp hcgl
      have hlt2 : b.StartedAt < c.StartedAt := by simpa using hlt
      obtain ⟨hcl, -⟩ := (mem_values_bucketReps f l c hdist).mp hcv
      refine ⟨⟨c, hcl, rfl⟩, ?_⟩
      have hle : f b.StartedAt ≤ f c.StartedAt := hmono (Nat.le_of_lt hlt2)
      have hbc : b ≠ c := fun he => absurd (he ▸ hlt2) (Nat.lt_irrefl _)
      have hne : f b.StartedAt ≠ f c.StartedAt :=
        hpkeys.forall (fun a c h => h.symm) hbv hcv hbc
      exact Nat.lt_of_le_of_ne hle hne
    · rintro ⟨⟨a, hal, haq⟩, hqlt⟩
      have hfil : a ∈ l.filter (fun c => f c.StartedAt == q) :=
        List.mem_filter.mpr ⟨hal, by simpa using haq⟩
      cases hbb : bucketBest f q l with
      | none =>
        rw [(bucketBest_eq_none_iff f q l).mp hbb] at hfil
        exact absurd hfil (List.not_mem_nil a)
      | some c =>
        obtain ⟨hcl, hcq, hcmax⟩ := bucketBest_spec f q l c hbb
        have hcv : c ∈ (bucketReps f l).map Prod.snd :=
          (mem_values_bucketReps f l c hdist).mpr
            ⟨hcl, fun d hd hdq => hcmax d hd (hcq ▸ hdq)⟩
        have hlt : b.StartedAt < c.StartedAt := by
          by_contra hnlt
          have hcb : c.StartedAt ≤ b.StartedAt := Nat.le_of_not_lt hnlt
          have hle := hmono hcb
          rw [hcq] at hle
          exact Nat.not_lt.mpr hle hqlt
        exact ⟨c, List.mem_filter.mpr ⟨hcv, by simpa using hlt⟩, hcq⟩
  calc (((bucketReps f l).map Prod.snd).filter
      (fun c => b.StartedAt < c.StartedAt)).length
      = ((((bucketReps f l).map Prod.snd).filter
          (fun c => b.StartedAt < c.StartedAt)).map
          (fun c => f c.StartedAt)).length := (List.length_map _ _).symm
    _ = ((((bucketReps f l).map Prod.snd).filter
          (fun c => b.StartedAt < c.StartedAt)).map
          (fun c => f c.StartedAt)).toFinset.card :=
        (List.toFinset_card_of_nodup hnd).symm
    _ = (((l.map (fun c => f c.StartedAt)).toFinset).filter
          (fun q => f b.StartedAt < q)).card := by rw [hset]

theorem mem_tierKeepIds (f : Nat → Nat) (K : Nat) (l : List Backup) (bid : String)
    (hmono : Monotone f)
    (hdist : l.Pairwise (fun a c => a.StartedAt ≠ c.StartedAt)) :
    bid ∈ tierKeepIds K (bucketReps f l) ↔
      ∃ b, b.Id = bid ∧ keptByTier f K l b := by
  unfold tierKeepIds keptByTier
  by_cases hK : 0 < K
  · rw [if_pos hK]
    simp only [List.mem_toFinset, List.mem_map]
    have hvdist : ((bucketReps f l).map Prod.snd).Pairwise
        (fun a c => a.StartedAt ≠ c.StartedAt) := values_pairwise_startedAt f l
    have hstrict : (sortDesc ((bucketReps f l).map Prod.snd)).Pairwise
        (fun a c => c.StartedAt < a.StartedAt) := sortDesc_strict _ hvdist
    constructor
    · rintro ⟨b, hbt, rfl⟩
      obtain ⟨hbs, hlen⟩ := (mem_take_iff_strictDesc _ K b hstrict).mp hbt
      have hbv : b ∈ (bucketReps f l).map Prod.snd :=
        (sortDesc_perm _).mem_iff.mp hbs
      obtain ⟨hbl, hmax⟩ := (mem_values_bucketReps f l b hdist).mp hbv
      refine ⟨b, rfl, hK, hbl, hmax, ?_⟩
      have htrans : ((sortDesc ((bucketReps f l).map Prod.snd)).filter
          (fun c => b.StartedAt < c.StartedAt)).length =
          (((bucketReps f l).map Prod.snd).filter
            (fun c => b.StartedAt < c.StartedAt)).length :=
        ((sortDesc_perm _).filter _).length_eq
      rw [htrans, values_filter_length_eq f l b hmono hdist hbv] at hlen
      exact hlen
    · rintro ⟨b, rfl, hK2, hbl, hmax, hcard⟩
      have hbv : b ∈ (bucketReps f l).map Prod.snd :=
        (mem_values_bucketReps f l b hdist).mpr ⟨hbl, hmax⟩
      refine ⟨b, ?_, rfl⟩
      rw [mem_take_iff_strictDesc _ K b hstrict]
      refine ⟨(sortDesc_perm _).mem_iff.mpr hbv, ?_⟩
      have htrans : ((sortDesc ((bucketReps f l).map Prod.snd)).filter
          (fun c => b.StartedAt < c.StartedAt)).length =
          (((bucketReps f l).map Prod.snd).filter
            (fun c => b.StartedAt < c.StartedAt)).length :=
        ((sortDesc_perm _).filter _).length_eq
      rw [htrans, values_filter_length_eq f l b hmono hdist hbv]
      exact hcard
  · rw [if_neg hK]
    simp only [Finset.not_mem_empty, false_iff]
    rintro ⟨b, -, hK2, -⟩
    exact hK hK2

theorem categorizeBackups_fields (F : TierFloors) (l : List Backup) :
    (categorizeBackups F l).hourly = bucketReps F.startOfHour l ∧
    (categorizeBackups F l).daily = bucketReps F.startOfDay l ∧
    (categorizeBackups F l).weekly = bucketReps F.startOfWeek l ∧
    (categorizeBackups F l).monthly = bucketReps F.startOfMonth l ∧
    (categorizeBackups F l).yearly = bucketReps F.startOfYear l := by
  have aux : ∀ (l2 : List Backup) (bk : BackupBucket),
      (l2.foldl (fun buckets backup =>
        { hourly := upsertRep buckets.hourly (F.startOfHour backup.StartedAt) backup
          daily := upsertRep buckets.daily (F.startOfDay backup.StartedAt) backup
          weekly := upsertRep buckets.weekly (F.startOfWeek backup.StartedAt) backup
          monthly := upsertRep buckets.monthly (F.startOfMonth backup.StartedAt) backup
          yearly := upsertRep buckets.yearly (F.startOfYear backup.StartedAt) backup }) bk) =
      ⟨l2.foldl (fun m b => upsertRep m (F.startOfHour b.StartedAt) b) bk.hourly,
       l2.foldl (fun m b => upsertRep m (F.startOfDay b.StartedAt) b) bk.daily,
       l2.foldl (fun m b => upsertRep m (F.startOfWeek b.StartedAt) b) bk.weekly,
       l2.foldl (fun m b => upsertRep m (F.startOfMonth b.StartedAt) b) bk.monthly,
       l2.foldl (fun m b => upsertRep m (F.startOfYear b.StartedAt) b) bk.yearly⟩ := by
    intro l2
    induction l2 with
    | nil => intro bk; rfl
    | cons b rest ih => intro bk; exact ih _
  have h := aux l ⟨[], [], [], [], []⟩
  unfold categorizeBackups bucketReps
  rw [h]
  exact ⟨rfl, rfl, rfl, rfl, rfl⟩

theorem keptByTier_perm (f : Nat → Nat) (K : Nat) {l1 l2 : List Backup}
    (hp : List.Perm l1 l2) (b : Backup) :
    keptByTier f K l1 b ↔ keptByTier f K l2 b := by
  unfold keptByTier
  have hm : ∀ c : Backup, c ∈ l1 ↔ c ∈ l2 := fun c => hp.mem_iff
  have hfs : (l1.map (fun c => f c.StartedAt)).toFinset =
      (l2.map (fun c => f c.StartedAt)).toFinset :=
    List.toFinset_eq_of_perm _ _ (hp.map _)
  rw [hfs]
  constructor
  · rintro ⟨h1, h2, h3, h4⟩
    exact ⟨h1, (hm b).mp h2, fun c hc => h3 c ((hm c).mpr hc), h4⟩
  · rintro ⟨h1, h2, h3, h4⟩
    exact ⟨h1, (hm b).mpr h2, fun c hc => h3 c ((hm c).mp hc), h4⟩

theorem mem_determineBackupsToKeep (F : TierFloors) (l : List Backup)
    (policy : RetentionPolicy) (bid : String) (hm : MonoFloors F)
    (hdist : l.Pairwise (fun a c => a.StartedAt ≠ c.StartedAt)) :
    bid ∈ determineBackupsToKeep F l policy ↔
      ∃ b, b.Id = bid ∧
        (keptByTier F.startOfHour policy.KeepHourly l b ∨
         keptByTier F.startOfDay policy.KeepDaily l b ∨
         keptByTier F.startOfWeek policy.KeepWeekly l b ∨
         keptByTier F.startOfMonth policy.KeepMonthly l b ∨
         keptByTier F.startOfYear policy.KeepYearly l b) := by
  unfold determineBackupsToKeep
  by_cases hemp : l.isEmpty
  · rw [if_pos hemp]
    have hnil : l = [] := List.isEmpty_iff.mp hemp
    subst hnil
    simp only [Finset.not_mem_empty, false_iff, keptByTier]
    rintro ⟨b, -, h | h | h | h | h⟩ <;> exact absurd h.2.1 (List.not_mem_nil b)
  · rw [if_neg hemp]
    dsimp only
    obtain ⟨hh, hd2, hw, hmo, hy⟩ := categorizeBackups_fields F (sortDesc l)
    rw [hh, hd2, hw, hmo, hy]
    have hdists : (sortDesc l).Pairwise (fun a c => a.StartedAt ≠ c.StartedAt) :=
      pairwise_startedNe_of_perm (sortDesc_perm l).symm hdist
    simp only [Finset.mem_union]
    rw [mem_tierKeepIds _ _ _ _ hm.hour hdists,
        mem_tierKeepIds _ _ _ _ hm.day hdists,
        mem_tierKeepIds _ _ _ _ hm.week hdists,
        mem_tierKeepIds _ _ _ _ hm.month hdists,
        mem_tierKeepIds _ _ _ _ hm.year hdists]
    have hk : ∀ (f : Nat → Nat) (K : Nat) (b : Backup),
        keptByTier f K (sortDesc l) b ↔ keptByTier f K l b :=
      fun f K b => keptByTier_perm f K (sortDesc_perm l) b
    constructor
    · rintro ((((⟨b, hbid, hkt⟩ | ⟨b, hbid, hkt⟩) | ⟨b, hbid, hkt⟩) |
        ⟨b, hbid, hkt⟩) | ⟨b, hbid, hkt⟩)
      · exact ⟨b, hbid, Or.inl ((hk _ _ b).mp hkt)⟩
      · exact ⟨b, hbid, Or.inr (Or.inl ((hk _ _ b).mp hkt))⟩
      · exact ⟨b, hbid, Or.inr (Or.inr (Or.inl ((hk _ _ b).mp hkt)))⟩
      · exact ⟨b, hbid, Or.inr (Or.inr (Or.inr (Or.inl ((hk _ _ b).mp hkt))))⟩
      · exact ⟨b, hbid, Or.inr (Or.inr (Or.inr (Or.inr ((hk _ _ b).mp hkt))))⟩
    · rintro ⟨b, hbid, hkt | hkt | hkt | hkt | hkt⟩
      · exact Or.inl (Or.inl (Or.inl (Or.inl ⟨b, hbid, (hk _ _ b).mpr hkt⟩)))
      · exact Or.inl (Or.inl (Or.inl (Or.inr ⟨b, hbid, (hk _ _ b).mpr hkt⟩)))
      · exact Or.inl (Or.inl (Or.inr ⟨b, hbid, (hk _ _ b).mpr hkt⟩))
      · exact Or.inl (Or.inr ⟨b, hbid, (hk _ _ b).mpr hkt⟩)
      · exact Or.inr ⟨b, hbid, (hk _ _ b).mpr hkt⟩

theorem monotone_floorTo (w : Nat) : Monotone (floorTo w) := by
  intro a b h
  exact Nat.mul_le_mul_right w (Nat.div_le_div_right h)

theorem fixedFloors_mono : MonoFloors fixedFloors :=
  ⟨monotone_floorTo 3600, monotone_floorTo 86400, monotone_floorTo 604800,
    monotone_floorTo 2592000, monotone_floorTo 31536000⟩

/-- C1: an artifact id is in the keep-set computed by
`determineBackupsToKeep` exactly when for one of the five tiers the
policy's keep count is positive, the artifact is the latest-starting
artifact of its bucket in that tier, and fewer than keep-count occupied
buckets of that tier are newer than its bucket; the keep-set is the union
of these per-tier selections.  Start instants are taken pairwise distinct
(the source leaves equal-instant ties unspecified) and the bucket-start
functions monotone, as the five date-fns bucket starts are. -/
theorem c1_keepset_characterization (F : TierFloors) (l : List Backup)
    (policy : RetentionPolicy) (bid : String) (hm : MonoFloors F)
    (hdist : l.Pairwise (fun a c => a.StartedAt ≠ c.StartedAt)) :
    bid ∈ determineBackupsToKeep F l policy ↔
      ∃ b, b.Id = bid ∧
        (keptByTier F.startOfHour policy.KeepHourly l b ∨
         keptByTier F.startOfDay policy.KeepDaily l b ∨
         keptByTier F.startOfWeek policy.KeepWeekly l b ∨
         keptByTier F.startOfMonth policy.KeepMonthly l b ∨
         keptByTier F.startOfYear policy.KeepYearly l b) :=
  mem_determineBackupsToKeep F l policy bid hm hdist

/-- Witness for C1 at three backups in three hour buckets under an
hourly-keep-2 policy. -/
theorem c1_keepset_characterization_witness :
    (MonoFloors fixedFloors ∧
      c1Backups.Pairwise (fun a c => a.StartedAt ≠ c.StartedAt)) ∧
    ("c" ∈ determineBackupsToKeep fixedFloors c1Backups ⟨2, 0, 0, 0, 0⟩ ↔
      ∃ b, b.Id = "c" ∧
        (keptByTier fixedFloors.startOfHour 2 c1Backups b ∨
         keptByTier fixedFloors.startOfDay 0 c1Backups b ∨
         keptByTier fixedFloors.startOfWeek 0 c1Backups b ∨
         keptByTier fixedFloors.startOfMonth 0 c1Backups b ∨
         keptByTier fixedFloors.startOfYear 0 c1Backups b)) :=
  ⟨⟨fixedFloors_mono, by decide⟩,
    c1_keepset_characterization fixedFloors c1Backups ⟨2, 0, 0, 0, 0⟩ "c"
      fixedFloors_mono (by decide)⟩

/-! ## Deletion loop lemmas -/

theorem retentionDeleteLoop_eq_foldl (toKeep : Finset String)
    (bs rows : List Backup) :
    retentionDeleteLoop toKeep bs rows =
      bs.foldl (fun acc b =>
        if b.Id ∈ toKeep then acc
        else (deleteBackupRecord acc.1 b.Id, acc.2 + 1)) (rows, 0) := rfl

theorem retentionDeleteLoop_count (toKeep : Finset String) :
    ∀ (bs rows : List Backup) (n : Nat),
      (bs.foldl (fun acc b =>
        if b.Id ∈ toKeep then acc
        else (deleteBackupRecord acc.1 b.Id, acc.2 + 1)) (rows, n)).2 =
      n + (bs.filter (fun b => !decide (b.Id ∈ toKeep))).length := by
  intro bs
  induction bs with
  | nil => intro rows n; simp
  | cons b rest ih =>
    intro rows n
    by_cases hb : b.Id ∈ toKeep
    · simpa [List.foldl_cons, if_pos hb, List.filter_cons, hb] using ih rows n
    · have := ih (deleteBackupRecord rows b.Id) (n + 1)
      simp only [List.foldl_cons, if_neg hb] at this ⊢
      rw [this]
      simp [List.filter_cons, hb]
      omega

theorem retentionDeleteLoop_mem (toKeep : Finset String) :
    ∀ (bs rows : List Backup) (n : Nat) (r : Backup),
      r ∈ (bs.foldl (fun acc b =>
        if b.Id ∈ toKeep then acc
        else (deleteBackupRecord acc.1 b.Id, acc.2 + 1)) (rows, n)).1 ↔
      r ∈ rows ∧ ∀ b ∈ bs, b.Id ∉ toKeep → r.Id ≠ b.Id := by
  intro bs
  induction bs with
  | nil => intro rows n r; simp
  | cons b rest ih =>
    intro rows n r
    by_cases hb : b.Id ∈ toKeep
    · rw [List.foldl_cons, if_pos hb, ih]
      constructor
      · rintro ⟨h1, h2⟩
        refine ⟨h1, ?_⟩
        intro b2 hb2 hnk
        rcases List.mem_cons.mp hb2 with rfl | hb2
        · exact absurd hb hnk
        · exact h2 b2 hb2 hnk
      · rintro ⟨h1, h2⟩
        exact ⟨h1, fun b2 hb2 => h2 b2 (List.mem_cons_of_mem _ hb2)⟩
    · rw [List.foldl_cons, if_neg hb, ih]
      unfold deleteBackupRecord
      rw [List.mem_filter]
      constructor
      · rintro ⟨⟨h1, hne⟩, h2⟩
        refine ⟨h1, ?_⟩
        intro b2 hb2 hnk
        rcases List.mem_cons.mp hb2 with rfl | hb2
        · simpa using hne
        · exact h2 b2 hb2 hnk
      · rintro ⟨h1, h2⟩
        refine ⟨⟨h1, ?_⟩, fun b2 hb2 => h2 b2 (List.mem_cons_of_mem _ hb2)⟩
        simpa using h2 b (List.mem_cons_self _ _) hb

theorem retentionDeleteLoop_sublist (toKeep : Finset String) :
    ∀ (bs rows : List Backup) (n : Nat),
      List.Sublist (bs.foldl (fun acc b =>
        if b.Id ∈ toKeep then acc
        else (deleteBackupRecord acc.1 b.Id, acc.2 + 1)) (rows, n)).1 rows := by
  intro bs
  induction bs with
  | nil => intro rows n; exact List.Sublist.refl rows
  | cons b rest ih =>
    intro rows n
    by_cases hb : b.Id ∈ toKeep
    · rw [List.foldl_cons, if_pos hb]
      exact ih rows n
    · rw [List.foldl_cons, if_neg hb]
      exact (ih _ _).trans (List.filter_sublist rows)

theorem retentionDeleteLoop_id (toKeep : Finset String) :
    ∀ (bs rows : List Backup) (n : Nat), (∀ b ∈ bs, b.Id ∈ toKeep) →
      bs.foldl (fun acc b =>
        if b.Id ∈ toKeep then acc
        else (deleteBackupRecord acc.1 b.Id, acc.2 + 1)) (rows, n) = (rows, n) := by
  intro bs
  induction bs with
  | nil => intro rows n _; rfl
  | cons b rest ih =>
    intro rows n hall
    rw [List.foldl_cons, if_pos (hall b (List.mem_cons_self _ _))]
    exact ih rows n (fun b2 hb2 => hall b2 (List.mem_cons_of_mem _ hb2))

/-! ## Completed-backup query lemmas -/

theorem mem_completedBackupsFor (rows : List Backup) (db : String) (b : Backup) :
    b ∈ completedBackupsFor rows db ↔
      b ∈ rows ∧ b.DatabaseConfigId = db ∧ b.Status = BackupStatus.completed := by
  unfold completedBackupsFor
  rw [(sortDesc_perm _).mem_iff, List.mem_filter]
  simp

theorem nodup_ids_completedBackupsFor (rows : List Backup) (db : String)
    (h : (rows.map Backup.Id).Nodup) :
    ((completedBackupsFor rows db).map Backup.Id).Nodup := by
  unfold completedBackupsFor
  have h1 : ((rows.filter (fun b =>
      b.DatabaseConfigId == db && b.Status == BackupStatus.completed)).map
      Backup.Id).Nodup :=
    h.sublist ((List.filter_sublist rows).map Backup.Id)
  exact ((sortDesc_perm _).map Backup.Id).nodup_iff.mpr h1

theorem pairwise_completedBackupsFor (rows : List Backup) (db : String)
    (h : rows.Pairwise (fun a c => a.StartedAt ≠ c.StartedAt)) :
    (completedBackupsFor rows db).Pairwise
      (fun a c => a.StartedAt ≠ c.StartedAt) := by
  unfold completedBackupsFor
  exact pairwise_startedNe_of_perm (sortDesc_perm _).symm
    (h.sublist (List.filter_sublist rows))

theorem mem_ids_of_mem_determine (F : TierFloors) (l : List Backup)
    (policy : RetentionPolicy) (bid : String)
    (h : bid ∈ determineBackupsToKeep F l policy) : bid ∈ l.map Backup.Id := by
  unfold determineBackupsToKeep at h
  by_cases hemp : l.isEmpty
  · rw [if_pos hemp] at h
    simp at h
  · rw [if_neg hemp] at h
    dsimp only at h
    simp only [Finset.mem_union] at h
    have htier : ∀ (K : Nat) (reps : List (Nat × Backup)),
        bid ∈ tierKeepIds K reps → ∃ p ∈ reps, p.2.Id = bid := by
      intro K reps ht
      unfold tierKeepIds at ht
      by_cases hK : 0 < K
      · rw [if_pos hK] at ht
        simp only [List.mem_toFinset, List.mem_map] at ht
        obtain ⟨b, hbt, rfl⟩ := ht
        have hbs : b ∈ sortDesc (reps.map Prod.snd) := List.mem_of_mem_take hbt
        have hbv : b ∈ reps.map Prod.snd := (sortDesc_perm _).mem_iff.mp hbs
        obtain ⟨p, hp, hpb⟩ := List.mem_map.mp hbv
        exact ⟨p, hp, by rw [hpb]⟩
      · rw [if_neg hK] at ht
        simp at ht
    obtain ⟨hh, hd2, hw, hmo, hy⟩ := categorizeBackups_fields F (sortDesc l)
    have hout : ∃ (f : Nat → Nat), ∃ p ∈ bucketReps f (sortDesc l), p.2.Id = bid := by
      rcases h with ((((h | h) | h) | h) | h)
      · exact ⟨F.startOfHour, htier _ _ (hh ▸ h)⟩
      · exact ⟨F.startOfDay, htier _ _ (hd2 ▸ h)⟩
      · exact ⟨F.startOfWeek, htier _ _ (hw ▸ h)⟩
      · exact ⟨F.startOfMonth, htier _ _ (hmo ▸ h)⟩
      · exact ⟨F.startOfYear, htier _ _ (hy ▸ h)⟩
    obtain ⟨f, p, hp, hpid⟩ := hout
    have hmem : p.2 ∈ sortDesc l := values_subset_bucketReps f (sortDesc l) p hp
    have hl : p.2 ∈ l := (sortDesc_perm l).mem_iff.mp hmem
    exact hpid ▸ List.mem_map_of_mem Backup.Id hl

theorem length_filter_mem_eq_card (l : List Backup) (s : Finset String)
    (hids : (l.map Backup.Id).Nodup)
    (hsub : ∀ bid ∈ s, bid ∈ l.map Backup.Id) :
    (l.filter (fun b => decide (b.Id ∈ s))).length = s.card := by
  have hnd : ((l.filter (fun b => decide (b.Id ∈ s))).map Backup.Id).Nodup :=
    hids.sublist ((List.filter_sublist l).map Backup.Id)
  have hset : ((l.filter (fun b => decide (b.Id ∈ s))).map Backup.Id).toFinset = s := by
    ext q
    simp only [List.mem_toFinset, List.mem_map, List.mem_filter, decide_eq_true_eq]
    constructor
    · rintro ⟨b, ⟨-, hbs⟩, rfl⟩
      exact hbs
    · intro hq
      obtain ⟨b, hbl, hbid⟩ := List.mem_map.mp (hsub q hq)
      exact ⟨b, ⟨hbl, hbid ▸ hq⟩, hbid⟩
  calc (l.filter (fun b => decide (b.Id ∈ s))).length
      = ((l.filter (fun b => decide (b.Id ∈ s))).map Backup.Id).length :=
        (List.length_map _ _).symm
    _ = ((l.filter (fun b => decide (b.Id ∈ s))).map Backup.Id).toFinset.card :=
        (List.toFinset_card_of_nodup hnd).symm
    _ = s.card := by rw [hset]

theorem length_filter_partition (l : List Backup) (p : Backup → Bool) :
    (l.filter p).length + (l.filter (fun b => !p b)).length = l.length := by
  have h := (List.filter_append_perm p l).length_eq
  simpa [List.length_append] using h

/-- C10: when the policy resolves and the target has at least one completed
artifact, the deleted and kept counts returned by `applyRetentionPolicy`
sum to the number of completed artifacts fetched for the target, every
completed artifact outside the keep-set has its catalog row removed, and
every completed artifact inside the keep-set keeps its catalog row
(catalog ids being unique). -/
theorem c10_retention_partition (F : TierFloors) (st : RetentionState)
    (db : String) (pid : Option String) (policy : RetentionPolicy)
    (hpol : getRetentionPolicy st.policies (resolvePolicyId pid) = some policy)
    (hne : completedBackupsFor st.backups db ≠ [])
    (hids : (st.backups.map Backup.Id).Nodup) :
    (applyRetentionPolicy F st db pid).2.1 + (applyRetentionPolicy F st db pid).2.2 =
      (completedBackupsFor st.backups db).length ∧
    (∀ b ∈ completedBackupsFor st.backups db,
      b.Id ∉ determineBackupsToKeep F (completedBackupsFor st.backups db) policy →
        b ∉ (applyRetentionPolicy F st db pid).1.backups) ∧
    (∀ b ∈ completedBackupsFor st.backups db,
      b.Id ∈ determineBackupsToKeep F (completedBackupsFor st.backups db) policy →
        b ∈ (applyRetentionPolicy F st db pid).1.backups) := by
  have hempf : (completedBackupsFor st.backups db).isEmpty = false := by
    cases hl : completedBackupsFor st.backups db with
    | nil => exact absurd hl hne
    | cons a as => rfl
  have happ : applyRetentionPolicy F st db pid =
      ({ st with backups :=
          (retentionDeleteLoop
            (determineBackupsToKeep F (completedBackupsFor st.backups db) policy)
            (completedBackupsFor st.backups db) st.backups).1 },
        (retentionDeleteLoop
            (determineBackupsToKeep F (completedBackupsFor st.backups db) policy)
            (completedBackupsFor st.backups db) st.backups).2,
        (determineBackupsToKeep F (completedBackupsFor st.backups db) policy).card) := by
    simp only [applyRetentionPolicy, hpol, hempf, Bool.false_eq_true, if_false]
  rw [happ]
  dsimp only
  refine ⟨?_, ?_, ?_⟩
  · rw [retentionDeleteLoop_eq_foldl, retentionDeleteLoop_count]
    have hkept : (determineBackupsToKeep F (completedBackupsFor st.backups db)
        policy).card =
        ((completedBackupsFor st.backups db).filter
          (fun b => decide (b.Id ∈ determineBackupsToKeep F
            (completedBackupsFor st.backups db) policy))).length := by
      symm
      refine length_filter_mem_eq_card _ _
        (nodup_ids_completedBackupsFor _ _ hids) ?_
      intro bid hbid
      exact mem_ids_of_mem_determine F _ policy bid hbid
    rw [hkept]
    have hpart := length_filter_partition (completedBackupsFor st.backups db)
      (fun b => decide (b.Id ∈ determineBackupsToKeep F
        (completedBackupsFor st.backups db) policy))
    omega
  · intro b hbbl hbk hmem
    rw [retentionDeleteLoop_eq_foldl, retentionDeleteLoop_mem] at hmem
    exact (hmem.2 b hbbl hbk) rfl
  · intro b hbbl hbk
    rw [retentionDeleteLoop_eq_foldl, retentionDeleteLoop_mem]
    refine ⟨((mem_completedBackupsFor _ _ _).mp hbbl).1, ?_⟩
    intro b2 hb2 hb2k heq
    exact hb2k (heq ▸ hbk)

/-- Witness for C10 at a concrete catalog with two hour buckets and a
foreign target row. -/
theorem c10_retention_partition_witness :
    (getRetentionPolicy c10State.policies (resolvePolicyId none) =
        some ⟨1, 0, 0, 0, 0⟩ ∧
      completedBackupsFor c10State.backups "db1" ≠ [] ∧
      (c10State.backups.map Backup.Id).Nodup) ∧
    ((applyRetentionPolicy fixedFloors c10State "db1" none).2.1 +
        (applyRetentionPolicy fixedFloors c10State "db1" none).2.2 =
      (completedBackupsFor c10State.backups "db1").length ∧
    (∀ b ∈ completedBackupsFor c10State.backups "db1",
      b.Id ∉ determineBackupsToKeep fixedFloors
          (completedBackupsFor c10State.backups "db1") ⟨1, 0, 0, 0, 0⟩ →
        b ∉ (applyRetentionPolicy fixedFloors c10State "db1" none).1.backups) ∧
    (∀ b ∈ completedBackupsFor c10State.backups "db1",
      b.Id ∈ determineBackupsToKeep fixedFloors
          (completedBackupsFor c10State.backups "db1") ⟨1, 0, 0, 0, 0⟩ →
        b ∈ (applyRetentionPolicy fixedFloors c10State "db1" none).1.backups)) :=
  ⟨⟨by decide, by decide, by decide⟩,
    c10_retention_partition fixedFloors c10State "db1" none ⟨1, 0, 0, 0, 0⟩
      (by decide) (by decide) (by decide)⟩

/-! ## Idempotence of the retention run -/

theorem applyRetentionPolicy_eq (F : TierFloors) (st : RetentionState)
    (db : String) (pid : Option String) (policy : RetentionPolicy)
    (hpol : getRetentionPolicy st.policies (resolvePolicyId pid) = some policy)
    (hempf : (completedBackupsFor st.backups db).isEmpty = false) :
    applyRetentionPolicy F st db pid =
      ({ st with backups :=
          (retentionDeleteLoop
            (determineBackupsToKeep F (completedBackupsFor st.backups db) policy)
            (completedBackupsFor st.backups db) st.backups).1 },
        (retentionDeleteLoop
            (determineBackupsToKeep F (completedBackupsFor st.backups db) policy)
            (completedBackupsFor st.backups db) st.backups).2,
        (determineBackupsToKeep F (completedBackupsFor st.backups db) policy).card) := by
  simp only [applyRetentionPolicy, hpol, hempf, Bool.false_eq_true, if_false]

theorem applyRetentionPolicy_policies (F : TierFloors) (st : RetentionState)
    (db : String) (pid : Option String) :
    (applyRetentionPolicy F st db pid).1.policies = st.policies := by
  cases hpol : getRetentionPolicy st.policies (resolvePolicyId pid) with
  | none => simp [applyRetentionPolicy, hpol]
  | some policy =>
    by_cases hemp : (completedBackupsFor st.backups db).isEmpty
    · simp [applyRetentionPolicy, hpol, hemp]
    · have hempf : (completedBackupsFor st.backups db).isEmpty = false := by
        revert hemp
        cases (completedBackupsFor st.backups db).isEmpty <;> simp
      rw [applyRetentionPolicy_eq F st db pid policy hpol hempf]

theorem applyRetentionPolicy_stable (F : TierFloors) (st : RetentionState)
    (db : String) (pid : Option String)
    (hstable : ∀ b ∈ completedBackupsFor st.backups db,
      ∀ policy, getRetentionPolicy st.policies (resolvePolicyId pid) = some policy →
        b.Id ∈ determineBackupsToKeep F (completedBackupsFor st.backups db) policy) :
    (applyRetentionPolicy F st db pid).2.1 = 0 ∧
    (applyRetentionPolicy F st db pid).1 = st := by
  cases hpol : getRetentionPolicy st.policies (resolvePolicyId pid) with
  | none => simp [applyRetentionPolicy, hpol]
  | some policy =>
    by_cases hemp : (completedBackupsFor st.backups db).isEmpty
    · simp [applyRetentionPolicy, hpol, hemp]
    · have hempf : (completedBackupsFor st.backups db).isEmpty = false := by
        revert hemp
        cases (completedBackupsFor st.backups db).isEmpty <;> simp
      rw [applyRetentionPolicy_eq F st db pid policy hpol hempf]
      have hid := retentionDeleteLoop_id
        (determineBackupsToKeep F (completedBackupsFor st.backups db) policy)
        (completedBackupsFor st.backups db) st.backups 0
        (fun b hb => hstable b hb policy hpol)
      rw [retentionDeleteLoop_eq_foldl, hid]
      exact ⟨rfl, rfl⟩

theorem eq_of_id_eq {l : List Backup} (h : (l.map Backup.Id).Nodup)
    {x b : Backup} (hx : x ∈ l) (hb : b ∈ l) (heq : x.Id = b.Id) : x = b := by
  have hpw : l.Pairwise (fun a c => a.Id ≠ c.Id) := by
    rwa [List.Nodup, List.pairwise_map] at h
  by_contra hne
  exact hpw.forall (fun a c h2 => h2.symm) hx hb hne heq

theorem keptByTier_of_sub (f : Nat → Nat) (K : Nat)
    {l2 l : List Backup} (hsub : ∀ c ∈ l2, c ∈ l) (b : Backup)
    (hb2 : b ∈ l2) (h : keptByTier f K l b) : keptByTier f K l2 b := by
  obtain ⟨hK, hbl, hmax, hcard⟩ := h
  refine ⟨hK, hb2, fun c hc hq => hmax c (hsub c hc) hq, ?_⟩
  refine Nat.lt_of_le_of_lt (Finset.card_le_card ?_) hcard
  intro q hq
  simp only [Finset.mem_filter, List.mem_toFinset, List.mem_map] at hq ⊢
  obtain ⟨⟨c, hc, hcq⟩, hlt⟩ := hq
  exact ⟨⟨c, hsub c hc, hcq⟩, hlt⟩

/-- C7: `applyRetentionPolicy` is idempotent — run once, then run again on
the resulting catalog with no new backups recorded in between: the second
run deletes zero artifacts and leaves the catalog state unchanged. -/
theorem c7_retention_idempotent (F : TierFloors) (st : RetentionState)
    (db : String) (pid : Option String) (hm : MonoFloors F)
    (hids : (st.backups.map Backup.Id).Nodup)
    (hdist : st.backups.Pairwise (fun a c => a.StartedAt ≠ c.StartedAt)) :
    (applyRetentionPolicy F (applyRetentionPolicy F st db pid).1 db pid).2.1 = 0 ∧
    (applyRetentionPolicy F (applyRetentionPolicy F st db pid).1 db pid).1 =
      (applyRetentionPolicy F st db pid).1 := by
  refine applyRetentionPolicy_stable F _ db pid ?_
  intro b hb2 policy hpol2
  rw [applyRetentionPolicy_policies] at hpol2
  cases hpol : getRetentionPolicy st.policies (resolvePolicyId pid) with
  | none =>
    rw [hpol] at hpol2
    exact absurd hpol2 (by simp)
  | some policy0 =>
    have hpeq : policy = policy0 := by
      rw [hpol] at hpol2
      exact (Option.some.inj hpol2).symm
    subst hpeq
    by_cases hemp : (completedBackupsFor st.backups db).isEmpty
    · have hnil : completedBackupsFor st.backups db = [] :=
        List.isEmpty_iff.mp hemp
      have hst1 : (applyRetentionPolicy F st db pid).1 = st := by
        simp [applyRetentionPolicy, hpol, hemp]
      rw [hst1, hnil] at hb2
      exact absurd hb2 (List.not_mem_nil b)
    · have hempf : (completedBackupsFor st.backups db).isEmpty = false := by
        revert hemp
        cases (completedBackupsFor st.backups db).isEmpty <;> simp
      have happ := applyRetentionPolicy_eq F st db pid policy hpol hempf
      have hdistbl := pairwise_completedBackupsFor st.backups db hdist
      have hidsbl := nodup_ids_completedBackupsFor st.backups db hids
      have hst1b : (applyRetentionPolicy F st db pid).1.backups =
          (retentionDeleteLoop
            (determineBackupsToKeep F (completedBackupsFor st.backups db) policy)
            (completedBackupsFor st.backups db) st.backups).1 := by
        rw [happ]
      obtain ⟨hbst1, hbdb, hbcomp⟩ := (mem_completedBackupsFor _ _ _).mp hb2
      rw [hst1b, retentionDeleteLoop_eq_foldl, retentionDeleteLoop_mem] at hbst1
      obtain ⟨hbst, hbsurv⟩ := hbst1
      have hbbl : b ∈ completedBackupsFor st.backups db :=
        (mem_completedBackupsFor _ _ _).mpr ⟨hbst, hbdb, hbcomp⟩
      have hbkeep1 : b.Id ∈ determineBackupsToKeep F
          (completedBackupsFor st.backups db) policy := by
        by_contra hnk
        exact (hbsurv b hbbl hnk) rfl
      have hsub : ∀ c ∈ completedBackupsFor
          (applyRetentionPolicy F st db pid).1.backups db,
          c ∈ completedBackupsFor st.backups db := by
        intro c hc
        obtain ⟨hc1, hc2, hc3⟩ := (mem_completedBackupsFor _ _ _).mp hc
        rw [hst1b, retentionDeleteLoop_eq_foldl, retentionDeleteLoop_mem] at hc1
        exact (mem_completedBackupsFor _ _ _).mpr ⟨hc1.1, hc2, hc3⟩
      have hdist1 : (applyRetentionPolicy F st db pid).1.backups.Pairwise
          (fun a c => a.StartedAt ≠ c.StartedAt) := by
        rw [hst1b, retentionDeleteLoop_eq_foldl]
        exact hdist.sublist (retentionDeleteLoop_sublist _ _ _ _)
      have hdistbl2 := pairwise_completedBackupsFor
        (applyRetentionPolicy F st db pid).1.backups db hdist1
      obtain ⟨c, hcid, hctier⟩ :=
        (mem_determineBackupsToKeep F (completedBackupsFor st.backups db)
          policy b.Id hm hdistbl).mp hbkeep1
      have hcmem : c ∈ completedBackupsFor st.backups db := by
        rcases hctier with h | h | h | h | h
        all_goals obtain ⟨-, hmem, -, -⟩ := h
        all_goals exact hmem
      have hbc : c = b := eq_of_id_eq hidsbl hcmem hbbl hcid
      subst hbc
      refine (mem_determineBackupsToKeep F _ policy c.Id hm hdistbl2).mpr
        ⟨c, rfl, ?_⟩
      rcases hctier with h | h | h | h | h
      · exact Or.inl (keptByTier_of_sub _ _ hsub c hb2 h)
      · exact Or.inr (Or.inl (keptByTier_of_sub _ _ hsub c hb2 h))
      · exact Or.inr (Or.inr (Or.inl (keptByTier_of_sub _ _ hsub c hb2 h)))
      · exact Or.inr (Or.inr (Or.inr (Or.inl (keptByTier_of_sub _ _ hsub c hb2 h))))
      · exact Or.inr (Or.inr (Or.inr (Or.inr (keptByTier_of_sub _ _ hsub c hb2 h))))

/-- Witness for C7 at a concrete catalog where the first run deletes one
backup. -/
theorem c7_retention_idempotent_witness :
    (MonoFloors fixedFloors ∧ (c10State.backups.map Backup.Id).Nodup ∧
      c10State.backups.Pairwise (fun a c => a.StartedAt ≠ c.StartedAt)) ∧
    ((applyRetentionPolicy fixedFloors
        (applyRetentionPolicy fixedFloors c10State "db1" none).1 "db1" none).2.1 = 0 ∧
      (applyRetentionPolicy fixedFloors
        (applyRetentionPolicy fixedFloors c10State "db1" none).1 "db1" none).1 =
        (applyRetentionPolicy fixedFloors c10State "db1" none).1) :=
  ⟨⟨fixedFloors_mono, by decide, by decide⟩,
    c7_retention_idempotent fixedFloors c10State "db1" none fixedFloors_mono
      (by decide) (by decide)⟩
